import Mathlib

/-!
Verification of the signal detection and aggregation engine of the alert1
repository: a shallow embedding of the rollup aggregator, the indicator
primitives, and the three rule evaluators (price alerts, trend channel,
volume spike), together with proofs of the specified properties.

Conventions of the embedding:
* Python floats are modelled as rationals (`ℚ`); `math.sqrt` (reached via
  `statistics.pstdev`) is modelled as an explicit function parameter
  `sqrtQ : ℚ → ℚ`, and any square-root behaviour a theorem needs is stated
  as a hypothesis about the concrete value it is applied to.
* Python exceptions are modelled with `Except String`.
* sqlite reads are modelled as oracle functions bundled into an `Env`
  record; sqlite writes (state saves, event inserts, cooldown upserts)
  appear as returned values or explicit store-update functions.
-/

namespace Alert1

/-- One OHLCV candle row as stored in the bars tables (`storage/migrate.py`
schema, fields used by the aggregator and the rule evaluators). The Python
field `open` is named `open_price` here because `open` is a Lean keyword. -/
structure Bar where
  source : String := "cex"
  exchange : String := "binance"
  chain : String := ""
  symbol : String := ""
  base : String := ""
  quote : String := ""
  open_ts : Int := 0
  close_ts : Int := 0
  open_price : ℚ := 0
  high : ℚ := 0
  low : ℚ := 0
  close : ℚ := 0
  volume_base : ℚ := 0
  volume_quote : ℚ := 0
  notional_usd : ℚ := 0
  trades : Int := 0
deriving DecidableEq, Repr, Inhabited

/-- `statistics.mean` on rationals (callers guard against empty input). -/
def mean (l : List ℚ) : ℚ := l.sum / (l.length : ℚ)

/-- Population variance, the square of `statistics.pstdev`. -/
def pvariance (l : List ℚ) : ℚ :=
  ((l.map (fun x => (x - mean l) ^ 2)).sum) / (l.length : ℚ)

/-- `indicators/zscore.py` `zscore_volume`: z-score of `current_notional`
against `baseline_series`. `statistics.pstdev` is `math.sqrt` of the
population variance; the square root is supplied by the caller as `sqrtQ`.
The Python code first drops `None` entries from the baseline; the
embedding receives the list of present values directly. -/
def zscore_volume (sqrtQ : ℚ → ℚ) (current_notional : ℚ)
    (baseline_series : List ℚ) : Option ℚ :=
  let samples := baseline_series
  if samples.length < 2 then none
  else
    let mu := mean samples
    let sigma := sqrtQ (pvariance samples)
    if sigma = 0 then none
    else some ((current_notional - mu) / sigma)

/-- Loop body of `indicators/ema.py` `ema`: `prev` starts out unset and is
seeded with the first value. -/
def emaAux (alpha : ℚ) : Option ℚ → List ℚ → List (Option ℚ)
  | _, [] => []
  | none, v :: rest => some v :: emaAux alpha (some v) rest
  | some p, v :: rest =>
      let nv := p + alpha * (v - p)
      some nv :: emaAux alpha (some nv) rest

/-- `indicators/ema.py` `ema`. Raises (ValueError) iff the span is
nonpositive. -/
def ema (series : List ℚ) (span : Int) : Except String (List (Option ℚ)) :=
  if span ≤ 0 then .error "span must be positive"
  else .ok (emaAux (2 / ((span : ℚ) + 1)) none series)

/-- True-range loop of `indicators/atr.py` `atr`, walking zipped
(high, low, close) triples and carrying the previous close. -/
def trValuesGo : Option ℚ → List (ℚ × ℚ × ℚ) → List ℚ
  | _, [] => []
  | none, (h, l, c) :: rest => (h - l) :: trValuesGo (some c) rest
  | some pc, (h, l, c) :: rest =>
      max (h - l) (max |h - pc| |l - pc|) :: trValuesGo (some c) rest

/-- True ranges for equal-length high/low/close series. -/
def trValues (highs lows closes : List ℚ) : List ℚ :=
  trValuesGo none (highs.zip (lows.zip closes))

/-- Smoothing loop of `indicators/atr.py` `atr`: `trAll` is the full
true-range list (the seed slices it), `idx` the running index and `prev`
the previous ATR value (unset until the seed is produced). -/
def atrGo (trAll : List ℚ) (period : ℕ) :
    List ℚ → ℕ → Option ℚ → List (Option ℚ)
  | [], _, _ => []
  | tr :: rest, idx, prev =>
    if idx + 1 < period then
      none :: atrGo trAll period rest (idx + 1) prev
    else
      let v := match prev with
        | none => (trAll.take period).sum / (period : ℚ)
        | some p => (p * ((period : ℚ) - 1) + tr) / (period : ℚ)
      some v :: atrGo trAll period rest (idx + 1) (some v)

/-- `indicators/atr.py` `atr`: Wilder-smoothed average true range. Raises
(models Python ValueError) iff the period is nonpositive or the inputs are
empty or of mismatched length. -/
def atr (high low close : List ℚ) (period : Int) :
    Except String (List (Option ℚ)) :=
  if period ≤ 0 then .error "period must be positive"
  else if high = [] ∨ high.length ≠ low.length ∨ high.length ≠ close.length then
    .error "high, low and close must be non-empty and of equal length"
  else
    let trs := trValues high low close
    .ok (atrGo trs period.toNat trs 0 none)

/-- Closed form of the Wilder smoothing recursion: value `k` steps after
the seed (which averages the first `period` true ranges). -/
def wilderAtr (trs : List ℚ) (period : ℕ) : ℕ → ℚ
  | 0 => (trs.take period).sum / (period : ℚ)
  | k + 1 =>
      (wilderAtr trs period k * ((period : ℚ) - 1) + trs.getD (period + k) 0) /
        (period : ℚ)

theorem trValuesGo_length (prev : Option ℚ) (l : List (ℚ × ℚ × ℚ)) :
    (trValuesGo prev l).length = l.length := by
  induction l generalizing prev with
  | nil => cases prev <;> rfl
  | cons x rest ih =>
      obtain ⟨h, l', c⟩ := x
      cases prev <;> simp [trValuesGo, ih]

theorem trValues_length (highs lows closes : List ℚ)
    (h1 : highs.length = lows.length) (h2 : highs.length = closes.length) :
    (trValues highs lows closes).length = highs.length := by
  simp only [trValues, trValuesGo_length, List.length_zip]
  omega

theorem atrGo_length (trAll : List ℚ) (p : ℕ) (rest : List ℚ) (idx : ℕ)
    (prev : Option ℚ) :
    (atrGo trAll p rest idx prev).length = rest.length := by
  induction rest generalizing idx prev with
  | nil => rfl
  | cons tr rest ih =>
      simp only [atrGo]
      split <;> simp [ih]

theorem atrGo_char (trs : List ℚ) (p : ℕ) :
    ∀ (rest : List ℚ) (k : ℕ) (prev : Option ℚ),
      rest = trs.drop k →
      (if p ≤ k then prev = some (wilderAtr trs p (k - p)) else prev = none) →
      ∀ i, i < rest.length →
        (atrGo trs p rest k prev)[i]? =
          some (if k + i + 1 < p then none
                else some (wilderAtr trs p (k + i + 1 - p))) := by
  intro rest
  induction rest with
  | nil =>
      intro k prev _ _ i hi
      simp at hi
  | cons tr rest ih =>
    intro k prev hdrop hprev i hi
    have htr : trs[k]? = some tr := by
      have h0 : (trs.drop k)[0]? = some tr := by rw [← hdrop]; simp
      simpa using h0
    have hdrop' : rest = trs.drop (k + 1) := by
      have := congrArg List.tail hdrop
      simpa [List.tail_drop] using this
    by_cases hlt : k + 1 < p
    · have hkp : ¬ p ≤ k := by omega
      rw [if_neg hkp] at hprev
      subst hprev
      simp only [atrGo, if_pos hlt]
      cases i with
      | zero =>
          simp only [List.getElem?_cons_zero]
          rw [if_pos (by omega : k + 0 + 1 < p)]
      | succ j =>
          simp only [List.getElem?_cons_succ]
          have := ih (k + 1) none hdrop'
            (by rw [if_neg (by omega : ¬ p ≤ k + 1)]) j (by simpa using hi)
          have harith : k + (j + 1) + 1 = (k + 1) + j + 1 := by omega
          rw [harith]
          exact this
    · have hk1p : p ≤ k + 1 := by omega
      by_cases hkp : p ≤ k
      · rw [if_pos hkp] at hprev
        subst hprev
        simp only [atrGo, if_neg hlt]
        have hv : (wilderAtr trs p (k - p) * ((p : ℚ) - 1) + tr) / (p : ℚ) =
            wilderAtr trs p (k + 1 - p) := by
          have hk : k + 1 - p = (k - p) + 1 := by omega
          rw [hk, wilderAtr]
          have hpk : p + (k - p) = k := by omega
          rw [hpk]
          simp [List.getD_eq_getElem?_getD, htr]
        cases i with
        | zero =>
            simp only [List.getElem?_cons_zero]
            rw [if_neg (by omega : ¬ k + 0 + 1 < p)]
            have : k + 0 + 1 - p = k + 1 - p := by omega
            rw [this, hv]
        | succ j =>
            simp only [List.getElem?_cons_succ]
            have := ih (k + 1)
              (some ((wilderAtr trs p (k - p) * ((p : ℚ) - 1) + tr) / (p : ℚ)))
              hdrop'
              (by rw [if_pos hk1p, hv]) j (by simpa using hi)
            have harith : k + (j + 1) + 1 = (k + 1) + j + 1 := by omega
            rw [harith]
            exact this
      · rw [if_neg hkp] at hprev
        subst hprev
        simp only [atrGo, if_neg hlt]
        have hk0 : k + 1 - p = 0 := by omega
        have hv : (trs.take p).sum / (p : ℚ) = wilderAtr trs p (k + 1 - p) := by
          rw [hk0, wilderAtr]
        cases i with
        | zero =>
            simp only [List.getElem?_cons_zero]
            rw [if_neg (by omega : ¬ k + 0 + 1 < p)]
            have : k + 0 + 1 - p = k + 1 - p := by omega
            rw [this, hv]
        | succ j =>
            simp only [List.getElem?_cons_succ]
            have := ih (k + 1) (some ((trs.take p).sum / (p : ℚ))) hdrop'
              (by rw [if_pos hk1p, hv]) j (by simpa using hi)
            have harith : k + (j + 1) + 1 = (k + 1) + j + 1 := by omega
            rw [harith]
            exact this

/-- C9: for equal-length non-empty high/low/close series and period ≥ 1,
`atr` succeeds and the result has the same length as the inputs; entries at
indices 0..period-2 are `none`; the entry at index period-1 is the simple
average of the first `period` true ranges; every later entry obeys the
Wilder recursion atr = (prev*(period-1) + tr)/period; and the function
raises InvalidParameter exactly when period ≤ 0 or the inputs are empty or
of mismatched length. -/
theorem c9_atr_contract (high low close : List ℚ) (period : Int)
    (h1 : high.length = low.length) (h2 : high.length = close.length)
    (hne : high ≠ []) (hp : 1 ≤ period) :
    (∃ result, atr high low close period = .ok result) ∧
    (∀ result, atr high low close period = .ok result →
        result.length = high.length
      ∧ (∀ i, i < high.length → (i : Int) + 1 < period → result[i]? = some none)
      ∧ (period.toNat ≤ high.length →
          result[period.toNat - 1]? =
            some (some (((trValues high low close).take period.toNat).sum /
              (period : ℚ))))
      ∧ (∀ i a, period.toNat ≤ i → i < high.length →
          result[i - 1]? = some (some a) →
          result[i]? = some (some ((a * ((period : ℚ) - 1) +
              (trValues high low close).getD i 0) / (period : ℚ))))) ∧
    (∀ (h l c : List ℚ) (per : Int),
        (∃ e, atr h l c per = .error e) ↔
          (per ≤ 0 ∨ h = [] ∨ h.length ≠ l.length ∨ h.length ≠ c.length)) := by
  have hple : ¬ period ≤ 0 := by omega
  have hcond : ¬ (high = [] ∨ high.length ≠ low.length ∨
      high.length ≠ close.length) := by
    push_neg
    exact ⟨hne, h1, h2⟩
  have hok : atr high low close period =
      .ok (atrGo (trValues high low close) period.toNat
        (trValues high low close) 0 none) := by
    rw [atr, if_neg hple, if_neg hcond]
  have hcast : ((period.toNat : ℕ) : ℚ) = (period : ℚ) := by
    have := Int.toNat_of_nonneg (show (0 : Int) ≤ period by omega)
    exact_mod_cast congrArg (fun z : Int => (z : ℚ)) this
  have hp1 : 1 ≤ period.toNat := by omega
  have htrlen : (trValues high low close).length = high.length :=
    trValues_length high low close h1 h2
  set trs := trValues high low close with htrs
  have hchar := atrGo_char trs period.toNat trs 0 none rfl
    (by rw [if_neg (by omega : ¬ period.toNat ≤ 0)])
  refine ⟨⟨_, hok⟩, ?_, ?_⟩
  · intro result hres
    rw [hok] at hres
    have hresult : result = atrGo trs period.toNat trs 0 none :=
      (Except.ok.inj hres).symm
    subst hresult
    refine ⟨by rw [atrGo_length, htrlen], ?_, ?_, ?_⟩
    · intro i hi hilt
      have := hchar i (by omega)
      rw [this, if_pos (by omega : 0 + i + 1 < period.toNat)]
    · intro hple2
      have := hchar (period.toNat - 1) (by omega)
      rw [this, if_neg (by omega : ¬ 0 + (period.toNat - 1) + 1 < period.toNat)]
      have hz : 0 + (period.toNat - 1) + 1 - period.toNat = 0 := by omega
      rw [hz, wilderAtr, hcast]
    · intro i a hpi hilen hprev
      have hchar_i := hchar i (by omega)
      have hchar_im := hchar (i - 1) (by omega)
      rw [if_neg (by omega : ¬ 0 + (i - 1) + 1 < period.toNat)] at hchar_im
      rw [hchar_im] at hprev
      have ha : a = wilderAtr trs period.toNat (0 + (i - 1) + 1 - period.toNat) := by
        have := Option.some.inj (Option.some.inj hprev)
        exact this.symm
      rw [hchar_i, if_neg (by omega : ¬ 0 + i + 1 < period.toNat)]
      have hsucc : 0 + i + 1 - period.toNat = (0 + (i - 1) + 1 - period.toNat) + 1 := by
        omega
      rw [hsucc, wilderAtr]
      have hidx : period.toNat + (0 + (i - 1) + 1 - period.toNat) = i := by omega
      rw [hidx, ha, hcast]
  · intro h l c per
    constructor
    · rintro ⟨e, he⟩
      by_contra hnone
      push_neg at hnone
      obtain ⟨hper, hnil, hl, hc⟩ := hnone
      rw [atr, if_neg (by omega : ¬ per ≤ 0),
        if_neg (by push_neg; exact ⟨hnil, hl, hc⟩)] at he
      exact Except.noConfusion he
    · intro hcases
      by_cases hper : per ≤ 0
      · exact ⟨_, by rw [atr, if_pos hper]⟩
      · have hrest : h = [] ∨ h.length ≠ l.length ∨ h.length ≠ c.length := by
          rcases hcases with h' | h' | h' | h'
          · omega
          · exact Or.inl h'
          · exact Or.inr (Or.inl h')
          · exact Or.inr (Or.inr h')
        exact ⟨_, by rw [atr, if_neg hper, if_pos hrest]⟩

/-- Witness for C9 at a concrete input: period 2 over three bars. -/
theorem c9_atr_contract_witness :
    (([10, 12, 11] : List ℚ) ≠ [] ∧ (1 : Int) ≤ 2) ∧
    (∃ result, atr [10, 12, 11] [9, 10, 10] [9, 11, 10] 2 = .ok result) :=
  ⟨⟨by decide, by decide⟩,
    (c9_atr_contract [10, 12, 11] [9, 10, 10] [9, 11, 10] 2 rfl rfl
      (by decide) (by decide)).1⟩

/-- `aggregator/rollup.py` `_bucket_close_ts`: the bucket a source candle
falls into closes at the next multiple of `window * 60` at or after its
own close time. Python floor division `//` is `Int.fdiv`. -/
def bucket_close_ts (close_ts : Int) (window : Int) : Int :=
  ((close_ts - 1).fdiv (window * 60) + 1) * (window * 60)

/-- Stable insertion into a list sorted ascending by close_ts (helper for
the embedding of Python `sorted(bars, key=close_ts)`). -/
def insertByCloseTs (b : Bar) : List Bar → List Bar
  | [] => [b]
  | c :: cs =>
      if c.close_ts < b.close_ts then c :: insertByCloseTs b cs
      else b :: c :: cs

/-- Stable sort by close_ts ascending, as Python `sorted` with a close_ts
key. -/
def sortByCloseTs : List Bar → List Bar
  | [] => []
  | b :: bs => insertByCloseTs b (sortByCloseTs bs)

/-- Maximum of a rational list (callers guard against empty input). -/
def qmax (l : List ℚ) : ℚ := l.foldl max (l.headD 0)

/-- Minimum of a rational list (callers guard against empty input). -/
def qmin (l : List ℚ) : ℚ := l.foldl min (l.headD 0)

/-- `aggregator/rollup.py` `_aggregate_bucket`: open/first, close/last,
high/low extrema, summed volumes and trades over the bucket members sorted
by close time. -/
def aggregate_bucket (symbol : String) (bars : List Bar) : Bar :=
  let bs := sortByCloseTs bars
  let first := bs.headD default
  let lastB := bs.getLastD default
  { source := first.source
    exchange := first.exchange
    chain := first.chain
    symbol := symbol
    base := first.base
    quote := first.quote
    open_ts := first.open_ts
    close_ts := lastB.close_ts
    open_price := first.open_price
    high := qmax (bs.map (·.high))
    low := qmin (bs.map (·.low))
    close := lastB.close
    volume_base := (bs.map (·.volume_base)).sum
    volume_quote := (bs.map (·.volume_quote)).sum
    notional_usd := (bs.map (·.notional_usd)).sum
    trades := (bs.map (·.trades)).sum }

/-- The conflict-key columns of `upsert_bar`:
(source, exchange, chain, symbol, close_ts). -/
abbrev RowKey := String × String × String × String × Int

/-- Conflict key of a bar. -/
def rowKey (b : Bar) : RowKey :=
  (b.source, b.exchange, b.chain, b.symbol, b.close_ts)

/-- First-appearance deduplication, as SQL DISTINCT and Python dict key
order behave here. -/
def distinct {α : Type} [DecidableEq α] (l : List α) : List α :=
  l.foldl (fun acc s => if s ∈ acc then acc else acc ++ [s]) []

/-- `aggregator/rollup.py` `_load_bars`: rows of one symbol, optionally
bounded below by `since`, ordered by close_ts ascending. -/
def loadBars (src : List Bar) (symbol : String) (since : Option Int) :
    List Bar :=
  sortByCloseTs (src.filter (fun b =>
    b.symbol == symbol && since.all (fun s => decide (s ≤ b.close_ts))))

/-- Per-symbol loop body of `rollup_bars`: group the loaded rows into
buckets keyed by `bucket_close_ts` (dict insertion order), aggregate each
bucket and stamp it with the bucket close time; one upsert per bucket. -/
def symbolWrites (src : List Bar) (window : Int) (since : Option Int)
    (symbol : String) : List (RowKey × Bar) :=
  let rows := loadBars src symbol since
  if rows = [] then []
  else
    let keys := distinct (rows.map (fun r => bucket_close_ts r.close_ts window))
    keys.map (fun k =>
      let members := rows.filter (fun r =>
        bucket_close_ts r.close_ts window == k)
      let agg := aggregate_bucket symbol members
      let agg2 := { agg with close_ts := k }
      (rowKey agg2, agg2))

/-- Incomplete buckets of one symbol (counted in the `skipped` statistic):
buckets none of whose members closes exactly at the bucket boundary. -/
def symbolSkipped (src : List Bar) (window : Int) (since : Option Int)
    (symbol : String) : Int :=
  let rows := loadBars src symbol since
  let keys := distinct (rows.map (fun r => bucket_close_ts r.close_ts window))
  ((keys.filter (fun k =>
    !(rows.filter (fun r => bucket_close_ts r.close_ts window == k)).any
      (fun b => b.close_ts == k))).length : Int)

/-- The `{aggregated, skipped}` counters returned by `rollup_bars`. -/
structure RollupStats where
  aggregated : Int := 0
  skipped : Int := 0
deriving DecidableEq, Repr

/-- Symbols present in the (since-filtered) source table,
`aggregator/rollup.py` `_fetch_symbols`. -/
def fetchSymbols (src : List Bar) (since : Option Int) : List String :=
  distinct ((src.filter (fun b =>
    since.all (fun s => decide (s ≤ b.close_ts)))).map (·.symbol))

/-- `aggregator/rollup.py` `rollup_bars`: validates the window, resolves
the destination table, and produces the ordered list of destination
upserts together with the statistics. A destination table outside the
allowed bars tables makes the first `upsert_bar` raise, so it is an error
whenever at least one write is attempted. -/
def rollup_bars (src : List Bar) (dst_table : Option String) (window : Int)
    (since : Option Int) : Except String (List (RowKey × Bar) × RollupStats) :=
  if window ≤ 0 then .error "window must be positive"
  else
    let targetE : Except String String :=
      match dst_table with
      | some t => .ok t
      | none =>
          if window = 5 then .ok "bars_5m"
          else if window = 15 then .ok "bars_15m"
          else .error "Unsupported rollup window"
    targetE.bind fun target =>
      let symbols := fetchSymbols src since
      let writes := symbols.flatMap (fun s => symbolWrites src window since s)
      let skippedCount :=
        symbols.foldl (fun acc s => acc + symbolSkipped src window since s) 0
      if target = "bars_1m" ∨ target = "bars_5m" ∨ target = "bars_15m" ∨
          writes = [] then
        .ok (writes, { aggregated := (writes.length : Int), skipped := skippedCount })
      else .error "Unsupported bars table"

/-- A bars table modelled by its contents at each conflict key;
`upsert_bar` is a last-write-wins overwrite at the key (the one column the
upsert skips, `bid`, is not among the fields the aggregator writes). -/
def upsertBar (table : RowKey → Option Bar) (w : RowKey × Bar) :
    RowKey → Option Bar :=
  fun k => if k = w.1 then some w.2 else table k

/-- Apply a sequence of upserts in order. -/
def applyWrites (table : RowKey → Option Bar) (ws : List (RowKey × Bar)) :
    RowKey → Option Bar :=
  ws.foldl upsertBar table

/-- Value of the last write to a key within a write sequence, if any. -/
def lastWrite : List (RowKey × Bar) → RowKey → Option Bar
  | [], _ => none
  | w :: ws, k =>
      match lastWrite ws k with
      | some v => some v
      | none => if w.1 = k then some w.2 else none

theorem applyWrites_apply (ws : List (RowKey × Bar))
    (table : RowKey → Option Bar) (k : RowKey) :
    applyWrites table ws k = (lastWrite ws k).orElse (fun _ => table k) := by
  induction ws generalizing table with
  | nil => rfl
  | cons w ws ih =>
    show applyWrites (upsertBar table w) ws k = _
    rw [ih]
    cases h : lastWrite ws k with
    | some v => simp [lastWrite, h, Option.orElse]
    | none =>
        simp only [lastWrite, h, Option.orElse, upsertBar]
        by_cases hk : k = w.1
        · simp [hk]
        · rw [if_neg hk, if_neg (fun he => hk he.symm)]

/-- Applying the same write sequence twice leaves the table exactly as
applying it once: each key ends at its last written value. -/
theorem applyWrites_idem (table : RowKey → Option Bar)
    (ws : List (RowKey × Bar)) :
    applyWrites (applyWrites table ws) ws = applyWrites table ws := by
  funext k
  rw [applyWrites_apply, applyWrites_apply]
  cases lastWrite ws k <;> rfl

/-- C1: rollup is idempotent. For every source-table contents, window and
since bound, if `rollup_bars` succeeds and produces the upsert sequence
`ws`, then running it a second time over the unchanged source (which
produces the identical, deterministic `ws`) leaves every destination table
in the same state: the second pass overwrites each destination candle with
identical values through the last-write-wins upsert keyed by
(source, exchange, chain, symbol, close_ts). -/
theorem c1_rollup_idempotent (src : List Bar) (dst_table : Option String)
    (window : Int) (since : Option Int) (table : RowKey → Option Bar)
    (ws : List (RowKey × Bar)) (stats : RollupStats)
    (_hrun : rollup_bars src dst_table window since = .ok (ws, stats)) :
    applyWrites (applyWrites table ws) ws = applyWrites table ws :=
  applyWrites_idem table ws

/-- Concrete source rows for the C1 witness: two 1-minute candles of one
symbol inside one 5-minute bucket. -/
def c1src : List Bar :=
  [{ symbol := "BTCUSDT", open_ts := 0, close_ts := 60, open_price := 100,
     high := 101, low := 99, close := 201 / 2, volume_base := 1,
     volume_quote := 100, notional_usd := 100, trades := 3 },
   { symbol := "BTCUSDT", open_ts := 60, close_ts := 120,
     open_price := 201 / 2, high := 102, low := 100, close := 101,
     volume_base := 2, volume_quote := 200, notional_usd := 200,
     trades := 4 }]

/-- Writes of the C1 witness run. -/
def c1ws : List (RowKey × Bar) :=
  match rollup_bars c1src none 5 none with
  | .ok (ws, _) => ws
  | .error _ => []

/-- Statistics of the C1 witness run. -/
def c1stats : RollupStats :=
  match rollup_bars c1src none 5 none with
  | .ok (_, st) => st
  | .error _ => {}

/-- Witness for C1 at a concrete source table. -/
theorem c1_rollup_idempotent_witness :
    rollup_bars c1src none 5 none = .ok (c1ws, c1stats) ∧
    applyWrites (applyWrites (fun _ => none) c1ws) c1ws =
      applyWrites (fun _ => none) c1ws :=
  ⟨rfl, c1_rollup_idempotent c1src none 5 none (fun _ => none) c1ws c1stats rfl⟩

theorem mem_distinct {α : Type} [DecidableEq α] (l : List α) (x : α) :
    x ∈ distinct l ↔ x ∈ l := by
  have main : ∀ (l acc : List α),
      x ∈ l.foldl (fun acc s => if s ∈ acc then acc else acc ++ [s]) acc ↔
        x ∈ acc ∨ x ∈ l := by
    intro l
    induction l with
    | nil => intro acc; simp
    | cons s t ih =>
        intro acc
        simp only [List.foldl_cons]
        rw [ih]
        by_cases hs : s ∈ acc
        · rw [if_pos hs]
          simp only [List.mem_cons]
          constructor
          · tauto
          · rintro (h | rfl | h)
            · exact Or.inl h
            · exact Or.inl hs
            · exact Or.inr h
        · rw [if_neg hs]
          simp only [List.mem_append, List.mem_singleton, List.mem_cons]
          tauto
  simpa [distinct] using main l []

theorem bucket_close_ts_dvd (a w : Int) : (w * 60) ∣ bucket_close_ts a w :=
  dvd_mul_left (w * 60) ((a - 1).fdiv (w * 60) + 1)

theorem bucket_close_ts_eq_ceil (a w : Int) (_ha : 0 ≤ a) (hw : 1 ≤ w) :
    bucket_close_ts a w =
      ⌈(a : ℚ) / ((w * 60 : Int) : ℚ)⌉ * (w * 60) := by
  set m : Int := w * 60 with hm
  have hm0 : 0 < m := by
    have h60 : (0 : Int) < 60 := by norm_num
    calc (0 : Int) < 1 * 60 := by norm_num
    _ ≤ w * 60 := by
      exact mul_le_mul_of_nonneg_right hw (by norm_num)
  have hmQ : (0 : ℚ) < (m : ℚ) := by exact_mod_cast hm0
  suffices h : (a - 1).fdiv m + 1 = ⌈(a : ℚ) / (m : ℚ)⌉ by
    rw [bucket_close_ts, ← hm, h]
  rw [Int.fdiv_eq_ediv _ (le_of_lt hm0)]
  set q : Int := (a - 1) / m with hq
  have h1 : q * m ≤ a - 1 := Int.ediv_mul_le (a - 1) (ne_of_gt hm0)
  have h2 : a - 1 < (q + 1) * m := Int.lt_ediv_add_one_mul_self (a - 1) hm0
  symm
  rw [Int.ceil_eq_iff]
  constructor
  · have hql : q * m < a := by linarith
    have hqlQ : ((q : ℚ)) * (m : ℚ) < (a : ℚ) := by exact_mod_cast hql
    have hgoal : ((q : ℚ)) < (a : ℚ) / (m : ℚ) := (lt_div_iff₀ hmQ).2 hqlQ
    push_cast
    linarith
  · have hqr : a ≤ (q + 1) * m := by linarith
    have hqrQ : (a : ℚ) ≤ ((q : ℚ) + 1) * (m : ℚ) := by exact_mod_cast hqr
    have hgoal : (a : ℚ) / (m : ℚ) ≤ (q : ℚ) + 1 := (div_le_iff₀ hmQ).2 hqrQ
    push_cast
    linarith

theorem bucket_close_ts_of_dvd (a w : Int) (hw : 1 ≤ w)
    (hdvd : (w * 60) ∣ a) : bucket_close_ts a w = a := by
  set m : Int := w * 60 with hm
  have hm0 : 0 < m := by
    calc (0 : Int) < 1 * 60 := by norm_num
    _ ≤ w * 60 := mul_le_mul_of_nonneg_right hw (by norm_num)
  obtain ⟨t, rfl⟩ := hdvd
  rw [bucket_close_ts, ← hm]
  have hsplit : m * t - 1 = (m - 1) + m * (t - 1) := by ring
  rw [hsplit, Int.fdiv_eq_ediv _ (le_of_lt hm0),
    Int.add_mul_ediv_left _ _ (ne_of_gt hm0),
    Int.ediv_eq_zero_of_lt (by omega) (by omega)]
  ring

theorem symbolWrites_close_ts_dvd (src : List Bar) (window : Int)
    (since : Option Int) (symbol : String) :
    ∀ w ∈ symbolWrites src window since symbol,
      (window * 60) ∣ w.2.close_ts := by
  intro w hw
  simp only [symbolWrites] at hw
  split at hw
  · simp at hw
  · rw [List.mem_map] at hw
    obtain ⟨k, hk, rfl⟩ := hw
    show (window * 60) ∣ k
    rw [mem_distinct] at hk
    rw [List.mem_map] at hk
    obtain ⟨r, _, hr⟩ := hk
    rw [← hr]
    exact bucket_close_ts_dvd r.close_ts window

theorem rollup_bars_ok_writes (src : List Bar) (dst : Option String)
    (window : Int) (since : Option Int) (ws : List (RowKey × Bar))
    (stats : RollupStats)
    (h : rollup_bars src dst window since = .ok (ws, stats)) :
    ws = (fetchSymbols src since).flatMap
      (fun s => symbolWrites src window since s) := by
  by_cases hw : window ≤ 0
  · rw [rollup_bars.eq_def, if_pos hw] at h
    exact Except.noConfusion h
  · rw [rollup_bars.eq_def, if_neg hw] at h
    cases dst with
    | some t =>
        simp only [Except.bind] at h
        split at h
        · injection h with h'
          injection h' with h1 h2
          exact h1.symm
        · exact Except.noConfusion h
    | none =>
        by_cases h5 : window = 5
        · simp only [if_pos h5, Except.bind] at h
          split at h
          · injection h with h'
            injection h' with h1 h2
            exact h1.symm
          · exact Except.noConfusion h
        · by_cases h15 : window = 15
          · simp only [if_neg h5, if_pos h15, Except.bind] at h
            split at h
            · injection h with h'
              injection h' with h1 h2
              exact h1.symm
            · exact Except.noConfusion h
          · simp only [if_neg h5, if_neg h15, Except.bind] at h
            exact Except.noConfusion h

/-- C7: for every close_ts ≥ 0 and window ≥ 1, the bucket a source candle
is placed in closes at ceil(close_ts / (window*60)) * (window*60) — the
next aligned boundary at or after its own close time, a close time already
on the boundary mapping to itself — and every candle written by
`rollup_bars` has a close_ts that is a multiple of window*60. -/
theorem c7_bucket_alignment (close_ts window : Int) (h0 : 0 ≤ close_ts)
    (hw : 1 ≤ window) :
    bucket_close_ts close_ts window =
        ⌈(close_ts : ℚ) / ((window * 60 : Int) : ℚ)⌉ * (window * 60)
    ∧ close_ts ≤ bucket_close_ts close_ts window
    ∧ (window * 60) ∣ bucket_close_ts close_ts window
    ∧ ((window * 60) ∣ close_ts → bucket_close_ts close_ts window = close_ts)
    ∧ (∀ (src : List Bar) (dst : Option String) (since : Option Int)
        (ws : List (RowKey × Bar)) (stats : RollupStats),
        rollup_bars src dst window since = .ok (ws, stats) →
        ∀ w ∈ ws, (window * 60) ∣ w.2.close_ts) := by
  refine ⟨bucket_close_ts_eq_ceil close_ts window h0 hw, ?_, ?_, ?_, ?_⟩
  · have hm0 : 0 < window * 60 := by
      calc (0 : Int) < 1 * 60 := by norm_num
      _ ≤ window * 60 := mul_le_mul_of_nonneg_right hw (by norm_num)
    rw [bucket_close_ts, Int.fdiv_eq_ediv _ (le_of_lt hm0)]
    have h2 := Int.lt_ediv_add_one_mul_self (close_ts - 1) hm0
    linarith
  · exact bucket_close_ts_dvd close_ts window
  · exact bucket_close_ts_of_dvd close_ts window hw
  · intro src dst since ws stats hok w hmem
    rw [rollup_bars_ok_writes src dst window since ws stats hok] at hmem
    rw [List.mem_flatMap] at hmem
    obtain ⟨s, _, hmem⟩ := hmem
    exact symbolWrites_close_ts_dvd src window since s w hmem

/-- Witness for C7 at close_ts 130, window 5: the bucket is at or after
the close time and is a multiple of 300. -/
theorem c7_bucket_alignment_witness :
    (0 : Int) ≤ 130 ∧ (1 : Int) ≤ 5 ∧
    (130 : Int) ≤ bucket_close_ts 130 5 ∧
    ((5 * 60 : Int)) ∣ bucket_close_ts 130 5 :=
  ⟨by decide, by decide,
    (c7_bucket_alignment 130 5 (by decide) (by decide)).2.1,
    (c7_bucket_alignment 130 5 (by decide) (by decide)).2.2.1⟩

/-- A price-alert rule row as `rules/price_alerts.py` reads it from the
`price_alert_rules` table: a record of optional fields whose `type` is a
free string (unknown strings make evaluation raise). `rtype` stands for
the Python key `type`, a Lean keyword. -/
structure Rule where
  id : String := "r"
  symbol : String := "X"
  rtype : String := "above"
  level : Option ℚ := none
  pct : Option ℚ := none
  hysteresis : Option ℚ := none
  hysteresis_pct : Option ℚ := none
  atr_k : Option ℚ := none
  direction : Option String := none
  confirm_mode : Option String := none
  confirm_seconds : Int := 0
  confirm_samples_total : ℕ := 0
  confirm_samples_pass : Option ℕ := none
  confirm_timeframe : Option String := none
  exchange : String := "binance"
  message : String := ""
deriving DecidableEq, Repr, Inhabited

/-- Persisted per-rule runtime state (the JSON blob behind
`price_state:<rule id>`); `_load_state` defaults to armed with empty
samples, which is the default value here. -/
structure RuleState where
  armed : Bool := true
  baseline : Option ℚ := none
  baseline_ts : Option Int := none
  condition_since : Option Int := none
  samples : List Bool := []
  last_trigger_ts : Option Int := none
deriving DecidableEq, Repr, Inhabited

/-- Snapshot of the sqlite reads a scan performs: `_latest_price` (close
of the latest 1m bar per symbol), the recent 1m bars `_atr_breakout`
fetches (limit 60), and the latest bar per table/symbol used by the
bar_close confirmation. -/
structure Env where
  latest1mClose : String → Option ℚ := fun _ => none
  recent1m : String → List Bar := fun _ => []
  latestBar : String → String → Option Bar := fun _ _ => none
deriving Inhabited

/-- Python truthiness of an optional number: `None` and `0` are falsy. -/
def truthyQ : Option ℚ → Bool
  | none => false
  | some v => decide (v ≠ 0)

/-- Python truthiness of an optional integer: `None` and `0` are falsy. -/
def truthyI : Option Int → Bool
  | none => false
  | some v => decide (v ≠ 0)

/-- Python truthiness of an optional string: `None` and `""` are falsy. -/
def truthyS : Option String → Bool
  | none => false
  | some s => decide (s ≠ "")

/-- Python `x or d` over an optional number. -/
def pyOrQ (o : Option ℚ) (d : ℚ) : ℚ :=
  match o with
  | some v => if v = 0 then d else v
  | none => d

/-- Python `x or d` over an optional string. -/
def pyOrS (o : Option String) (d : String) : String :=
  match o with
  | some s => if s = "" then d else s
  | none => d

/-- Containment of a character list in another, scanning all suffixes. -/
def containsSub (sub : List Char) : List Char → Bool
  | [] => sub.isEmpty
  | s@(_ :: rest) => sub.isPrefixOf s || containsSub sub rest

/-- Python `s.startswith(pre)` (over the character lists, which compute
inside the kernel). -/
def pyStartsWith (s pre : String) : Bool := pre.toList.isPrefixOf s.toList

/-- Python `sub in s` substring membership. -/
def pyIn (sub s : String) : Bool := containsSub sub.toList s.toList

/-- `rules/price_alerts.py` `_apply_hysteresis`: only acts while disarmed;
computes a re-arm threshold from level and hysteresis (absolute or
percentage) for above/below rules, or compares against the stored baseline
for pct rules; returns the updated state and whether the rule was re-armed
by this call. -/
def apply_hysteresis (rule : Rule) (price : ℚ) (state : RuleState) :
    RuleState × Bool :=
  let was_armed := state.armed
  if was_armed then (state, false)
  else
    let level := pyOrQ rule.level price
    let threshold :=
      if truthyQ rule.hysteresis_pct then
        if rule.rtype = "above" then level * (1 - rule.hysteresis_pct.getD 0)
        else if rule.rtype = "below" then level * (1 + rule.hysteresis_pct.getD 0)
        else level
      else if truthyQ rule.hysteresis then
        if rule.rtype = "above" then level - rule.hysteresis.getD 0
        else if rule.rtype = "below" then level + rule.hysteresis.getD 0
        else level
      else level
    let state1 :=
      if rule.rtype = "above" ∧ price ≤ threshold then
        { state with armed := true }
      else if rule.rtype = "below" ∧ threshold ≤ price then
        { state with armed := true }
      else if pyStartsWith rule.rtype "pct" then
        let baseline := state.baseline.getD level
        { state with armed :=
            if (pyIn "up" rule.rtype) then decide (price ≤ baseline)
            else decide (baseline ≤ price) }
      else state
    (state1, !was_armed && state1.armed)

/-- `rules/price_alerts.py` `_atr_breakout`: needs at least 20 recent 1m
bars, EMA(20) and ATR(14) over them, and compares the price against
ema ± k·atr per the configured direction. -/
def atr_breakout (env : Env) (rule : Rule) (price : ℚ) :
    Except String Bool :=
  let bars := env.recent1m rule.symbol
  if bars.length < 20 then .ok false
  else
    let closes := bars.map (·.close)
    let highs := bars.map (·.high)
    let lows := bars.map (·.low)
    (ema closes 20).bind fun ema_values =>
    (atr highs lows closes 14).bind fun atr_values =>
    match ema_values.getLast?, atr_values.getLast? with
    | none, _ => .error "IndexError"
    | some _, none => .error "IndexError"
    | some ema_last, some atr_last =>
      match ema_last, atr_last with
      | some el, some al =>
          let k := pyOrQ rule.atr_k 1
          let direction := pyOrS rule.direction "above"
          if direction = "above" then .ok (decide (el + k * al ≤ price))
          else if direction = "below" then .ok (decide (price ≤ el - k * al))
          else .ok (decide (k * al ≤ |price - el|))
      | _, _ => .ok false

/-- `rules/price_alerts.py` `_evaluate_condition`: raw boolean condition
per rule kind; raises (ValueError) on an unknown kind and (TypeError) when
a needed numeric field is absent. -/
def evaluate_condition (env : Env) (rule : Rule) (price : ℚ)
    (state : RuleState) : Except String Bool :=
  let baseline := state.baseline.getD price
  if rule.rtype = "above" then
    match rule.level with
    | some l => .ok (decide (l ≤ price))
    | none => .error "TypeError: float of None"
  else if rule.rtype = "below" then
    match rule.level with
    | some l => .ok (decide (price ≤ l))
    | none => .error "TypeError: float of None"
  else if rule.rtype = "pct_up" then
    match rule.pct with
    | some p => .ok (decide (baseline * (1 + p) ≤ price))
    | none => .error "TypeError: float of None"
  else if rule.rtype = "pct_down" then
    match rule.pct with
    | some p => .ok (decide (price ≤ baseline * (1 - p)))
    | none => .error "TypeError: float of None"
  else if rule.rtype = "atr_breakout" then
    atr_breakout env rule price
  else .error ("Unsupported rule type: " ++ rule.rtype)

/-- Python list slice `samples[-total:]` for the nonnegative totals the
confirmation code uses: `-0` slices the whole list. -/
def pyLastSlice (total : ℕ) (l : List Bool) : List Bool :=
  if total = 0 then l else l.drop (l.length - total)

/-- `rules/price_alerts.py` `_confirm`: confirmation policies time /
samples / bar_close; mutates the state (condition_since, samples) and
returns it with the confirmation outcome. -/
def confirm (env : Env) (rule : Rule) (condition : Bool)
    (state : RuleState) (now_ts : Int) :
    Except String (RuleState × Bool) :=
  if ¬ truthyS rule.confirm_mode then .ok (state, condition)
  else
    let mode := rule.confirm_mode.getD ""
    if mode = "time" then
      if condition then
        let since :=
          if truthyI state.condition_since then state.condition_since.getD now_ts
          else now_ts
        .ok ({ state with condition_since := some since },
          decide (rule.confirm_seconds ≤ now_ts - since))
      else
        .ok ({ state with condition_since := none }, false)
    else if mode = "samples" then
      let samples0 := state.samples ++ [condition]
      let total := rule.confirm_samples_total
      let samples :=
        if total < samples0.length then pyLastSlice total samples0 else samples0
      let state1 := { state with samples := samples }
      if samples.length < total then .ok (state1, false)
      else
        let passes := samples.countP id
        .ok (state1, decide (rule.confirm_samples_pass.getD total ≤ passes))
    else if mode = "bar_close" then
      let tf := pyOrS rule.confirm_timeframe "5m"
      let table := if tf = "5m" then "bars_5m" else "bars_15m"
      match env.latestBar table rule.symbol with
      | none => .ok (state, false)
      | some bar =>
          (evaluate_condition env rule bar.close state).map
            (fun c => (state, c))
    else .ok (state, condition)

/-- An alert event row as `_build_event` produces it (the detail JSON is
kept as the price it records). -/
structure Event where
  id : String := ""
  ts : Int := 0
  symbol : String := ""
  source : String := "cex"
  exchange : String := "binance"
  timeframe : String := "1m"
  rule : String := ""
  severity : String := "info"
  message : String := ""
  detail_price : ℚ := 0
  created_at : Int := 0
  delivered : Bool := false
deriving DecidableEq, Repr, Inhabited

/-- `rules/price_alerts.py` `_build_event`. -/
def build_event (rule : Rule) (price : ℚ) (now_ts : Int) : Event :=
  { id := "PRICE-" ++ rule.id ++ "-" ++ toString now_ts
    ts := now_ts
    symbol := rule.symbol
    source := "cex"
    exchange := rule.exchange
    timeframe := "1m"
    rule := "price_" ++ rule.rtype
    severity := "info"
    message := rule.message
    detail_price := price
    created_at := now_ts
    delivered := false }

/-- Tail of the per-rule loop body of `scan_price_alerts`: disarmed skip,
condition evaluation, confirmation, and the fire mutation. -/
def scan_rule_tail (env : Env) (now : Int) (rule : Rule) (price : ℚ)
    (state : RuleState) : Except String (RuleState × Option Event) :=
  if ¬ state.armed then .ok (state, none)
  else
    (evaluate_condition env rule price state).bind fun condition =>
    (confirm env rule condition state now).bind fun sc =>
    let state := sc.1
    if ¬ sc.2 then .ok (state, none)
    else
      let ev := build_event rule price now
      let state2 := { state with
        armed := false
        baseline := some price
        last_trigger_ts := some now
        condition_since := none
        samples := [] }
      .ok (state2, some ev)

/-- One iteration of the rule loop of `scan_price_alerts` for a single
rule: skip when no price is available (the state is then not rewritten,
which the third component signals), hysteresis, pct-baseline
establishment, then `scan_rule_tail`. -/
def scan_rule_step (env : Env) (now : Int) (rule : Rule)
    (state0 : RuleState) : Except String (RuleState × Option Event × Bool) :=
  match env.latest1mClose rule.symbol with
  | none => .ok (state0, none, false)
  | some price =>
    let baseline_initialized := state0.baseline.isSome
    let hz := apply_hysteresis rule price state0
    let state := hz.1
    let rearmed := hz.2
    if rule.rtype = "pct_up" ∨ rule.rtype = "pct_down" then
      let state :=
        if rearmed ∨ ¬ baseline_initialized then
          { state with baseline := some price, baseline_ts := some now }
        else state
      if ¬ baseline_initialized then .ok (state, none, true)
      else (scan_rule_tail env now rule price state).map
        (fun r => (r.1, r.2, true))
    else (scan_rule_tail env now rule price state).map
      (fun r => (r.1, r.2, true))

/-- `_load_state`: stored state or the armed/empty default. -/
def load_state (states : String → Option RuleState) (rid : String) :
    RuleState :=
  (states rid).getD {}

/-- `_save_state` into the kv store. -/
def save_state (states : String → Option RuleState) (rid : String)
    (s : RuleState) : String → Option RuleState :=
  fun k => if k = rid then some s else states k

/-- Rule loop of `rules/price_alerts.py` `scan_price_alerts`: processes
the rules in order; an exception raised for one rule propagates (there is
no per-rule handler in the source), aborting the remaining rules. -/
def scanGo (env : Env) (now : Int) :
    List Rule → (String → Option RuleState) → List Event →
    Except String ((String → Option RuleState) × List Event)
  | [], states, events => .ok (states, events)
  | r :: rest, states, events =>
    (scan_rule_step env now r (load_state states r.id)).bind fun res =>
    let states := if res.2.2 then save_state states r.id res.1 else states
    let events := events ++ res.2.1.toList
    scanGo env now rest states events

/-- `rules/price_alerts.py` `scan_price_alerts` over an explicit enabled
rule list, state store and read snapshot. -/
def scan_price_alerts (env : Env) (now : Int) (rules : List Rule)
    (states : String → Option RuleState) :
    Except String ((String → Option RuleState) × List Event) :=
  scanGo env now rules states []

/-- Per-scan inputs of a trace of scans of one rule: the scan time and the
read snapshot at that scan. -/
structure ScanTick where
  now : Int := 0
  env : Env := {}
deriving Inhabited

/-- State of one rule after `n` scans of a trace (errors propagate). -/
def ruleTraceState (rule : Rule) (ticks : ℕ → ScanTick) (s0 : RuleState) :
    ℕ → Except String RuleState
  | 0 => .ok s0
  | n + 1 =>
      (ruleTraceState rule ticks s0 n).bind fun s =>
      (scan_rule_step (ticks n).env (ticks n).now rule s).map (fun r => r.1)

/-- Whether scan `n` of the trace fires the rule. -/
def ruleTraceFired (rule : Rule) (ticks : ℕ → ScanTick) (s0 : RuleState)
    (n : ℕ) : Except String Bool :=
  (ruleTraceState rule ticks s0 n).bind fun s =>
  (scan_rule_step (ticks n).env (ticks n).now rule s).map
    (fun r => r.2.1.isSome)

/-- The C2 rule: enabled price alert of kind above with level 105,
absolute hysteresis 2 and a time confirmation of `N` seconds. -/
def aboveRule (N : Int) : Rule :=
  { id := "r1", symbol := "X", rtype := "above", level := some 105,
    hysteresis := some 2, confirm_mode := some "time",
    confirm_seconds := N }

/-- State written by a fire of an above rule at price `p` and time
`now`. -/
def fireState (s : RuleState) (p : ℚ) (now : Int) : RuleState :=
  { s with
    armed := false
    baseline := some p
    last_trigger_ts := some now
    condition_since := none
    samples := [] }

/-- Trace inputs from separate time and snapshot functions. -/
def mkTicks (t : ℕ → Int) (e : ℕ → Env) : ℕ → ScanTick :=
  fun i => { now := t i, env := e i }

theorem evaluate_condition_above (N : Int) (env : Env) (p : ℚ)
    (s : RuleState) :
    evaluate_condition env (aboveRule N) p s = .ok (decide ((105 : ℚ) ≤ p)) :=
  rfl

theorem apply_hysteresis_armed (rule : Rule) (p : ℚ) (s : RuleState)
    (hs : s.armed = true) : apply_hysteresis rule p s = (s, false) := by
  simp only [apply_hysteresis, hs]
  simp

theorem apply_hysteresis_above (N : Int) (p : ℚ) (s : RuleState)
    (hs : s.armed = false) :
    apply_hysteresis (aboveRule N) p s =
      (if p ≤ 103 then ({ s with armed := true }, true) else (s, false)) := by
  unfold apply_hysteresis
  rw [hs]
  simp only [aboveRule, truthyQ, pyOrQ, pyIn]
  norm_num
  by_cases hp : p ≤ 103
  · rw [if_pos hp, if_pos hp]
  · rw [if_neg hp, if_neg hp]
    simp [show pyStartsWith "above" "pct" = false from by decide, hs]

theorem confirm_time_false (N : Int) (env : Env) (s : RuleState)
    (now : Int) :
    confirm env (aboveRule N) false s now =
      .ok ({ s with condition_since := none }, false) := by
  simp only [confirm, aboveRule, truthyS]
  norm_num
  simp

theorem confirm_time_true_fresh (N : Int) (env : Env) (s : RuleState)
    (now : Int) (hsince : truthyI s.condition_since = false) :
    confirm env (aboveRule N) true s now =
      .ok ({ s with condition_since := some now }, decide (N ≤ now - now)) := by
  simp only [confirm, aboveRule, truthyS, hsince]
  norm_num
  simp

theorem confirm_time_true_kept (N : Int) (env : Env) (s : RuleState)
    (now u : Int) (hsince : s.condition_since = some u) (hu : u ≠ 0) :
    confirm env (aboveRule N) true s now =
      .ok ({ s with condition_since := some u }, decide (N ≤ now - u)) := by
  simp only [confirm, aboveRule, truthyS, truthyI, hsince]
  norm_num [hu]
  simp

/-- The `condition_since` value a time confirmation keeps or starts:
`state.get("condition_since") or now_ts` (0 is falsy). -/
def sinceOf (s : RuleState) (now : Int) : Int :=
  if truthyI s.condition_since then s.condition_since.getD now else now

theorem confirm_time_true (N : Int) (env : Env) (s : RuleState)
    (now : Int) :
    confirm env (aboveRule N) true s now =
      .ok ({ s with condition_since := some (sinceOf s now) },
        decide (N ≤ now - sinceOf s now)) := by
  by_cases h : truthyI s.condition_since = true
  · cases hsc : s.condition_since with
    | none => rw [hsc] at h; simp [truthyI] at h
    | some u =>
        have hu : u ≠ 0 := by
          rw [hsc] at h
          simpa [truthyI] using h
        rw [confirm_time_true_kept N env s now u hsc hu]
        have hununfold : sinceOf s now = u := by
          simp [sinceOf, hsc, truthyI, hu]
        rw [hununfold]
  · have h2 : truthyI s.condition_since = false := by simpa using h
    rw [confirm_time_true_fresh N env s now h2]
    have hununfold : sinceOf s now = now := by
      simp [sinceOf, h2]
    rw [hununfold]

theorem step_above_armed (N : Int) (env : Env) (now : Int) (p : ℚ)
    (s : RuleState) (henv : env.latest1mClose "X" = some p)
    (hs : s.armed = true) :
    scan_rule_step env now (aboveRule N) s =
      (if (105 : ℚ) ≤ p then
        (if N ≤ now - sinceOf s now then
          .ok (fireState s p now, some (build_event (aboveRule N) p now), true)
        else
          .ok ({ s with condition_since := some (sinceOf s now) }, none, true))
       else .ok ({ s with condition_since := none }, none, true)) := by
  have hsym : (aboveRule N).symbol = "X" := rfl
  have hrt : (aboveRule N).rtype = "above" := rfl
  simp only [scan_rule_step, hsym, henv, hrt]
  simp only [apply_hysteresis_armed _ _ _ hs]
  rw [if_neg (by simp : ¬ ("above" = "pct_up" ∨ "above" = "pct_down"))]
  simp only [scan_rule_tail, evaluate_condition_above, hs]
  rw [if_neg (show ¬ ¬ True by simp)]
  simp only [Except.bind]
  by_cases hcond : (105 : ℚ) ≤ p
  · rw [if_pos hcond, decide_eq_true hcond]
    simp only [confirm_time_true]
    by_cases hN : N ≤ now - sinceOf s now
    · rw [if_pos hN, decide_eq_true hN]
      simp [fireState, Except.map]
    · rw [if_neg hN, decide_eq_false hN]
      simp [Except.map, hs]
  · rw [if_neg hcond, decide_eq_false hcond]
    simp only [confirm_time_false]
    simp [Except.map, hs]

theorem step_above_disarmed (N : Int) (env : Env) (now : Int) (p : ℚ)
    (s : RuleState) (henv : env.latest1mClose "X" = some p)
    (hs : s.armed = false) :
    scan_rule_step env now (aboveRule N) s =
      (if p ≤ 103 then
        .ok ({ s with armed := true, condition_since := none }, none, true)
       else .ok (s, none, true)) := by
  have hsym : (aboveRule N).symbol = "X" := rfl
  have hrt : (aboveRule N).rtype = "above" := rfl
  simp only [scan_rule_step, hsym, henv, hrt]
  rw [apply_hysteresis_above N p s hs]
  by_cases hp : p ≤ 103
  · simp only [if_pos hp]
    rw [if_neg (by simp : ¬ ("above" = "pct_up" ∨ "above" = "pct_down"))]
    have hnot : ¬ (105 : ℚ) ≤ p := by linarith
    simp only [scan_rule_tail, evaluate_condition_above]
    rw [if_neg (show ¬ ¬ True by simp)]
    simp only [Except.bind, decide_eq_false hnot, confirm_time_false]
    simp [Except.map]
  · simp only [if_neg hp]
    rw [if_neg (by simp : ¬ ("above" = "pct_up" ∨ "above" = "pct_down"))]
    simp only [scan_rule_tail, hs]
    simp [Except.map]

theorem scan_rule_tail_fired_armed_false (env : Env) (now : Int)
    (rule : Rule) (p : ℚ) (s : RuleState) :
    ∀ s' ev, scan_rule_tail env now rule p s = .ok (s', some ev) →
      s'.armed = false := by
  intro s' ev h
  unfold scan_rule_tail at h
  split at h
  · simp at h
  · cases hev : evaluate_condition env rule p s with
    | error e => rw [hev] at h; simp [Except.bind] at h
    | ok condition =>
        rw [hev] at h
        simp only [Except.bind] at h
        cases hc : confirm env rule condition s now with
        | error e => rw [hc] at h; simp at h
        | ok sc =>
            rw [hc] at h
            simp only at h
            split at h
            · simp at h
            · rw [Except.ok.injEq, Prod.mk.injEq] at h
              rw [← h.1]

theorem scan_rule_step_fired_armed_false (env : Env) (now : Int)
    (rule : Rule) (s : RuleState) :
    ∀ r, scan_rule_step env now rule s = .ok r → r.2.1.isSome = true →
      r.1.armed = false := by
  intro r h hf
  unfold scan_rule_step at h
  cases henv : env.latest1mClose rule.symbol with
  | none =>
      rw [henv] at h
      simp only [Except.ok.injEq] at h
      rw [← h] at hf
      simp at hf
  | some p =>
      rw [henv] at h
      simp only at h
      split at h
      · split at h
        · simp only [Except.ok.injEq] at h
          rw [← h] at hf
          simp at hf
        · cases htail : scan_rule_tail env now rule p
              (if (apply_hysteresis rule p s).2 = true ∨ ¬ s.baseline.isSome = true
               then { (apply_hysteresis rule p s).1 with
                      baseline := some p, baseline_ts := some now }
               else (apply_hysteresis rule p s).1) with
          | error e => rw [htail] at h; simp [Except.map] at h
          | ok pr =>
              rw [htail] at h
              simp only [Except.map, Except.ok.injEq] at h
              rw [← h] at hf ⊢
              simp only at hf ⊢
              cases hevopt : pr.2 with
              | none => rw [hevopt] at hf; simp at hf
              | some ev =>
                  exact scan_rule_tail_fired_armed_false env now rule p _ pr.1
                    ev (by rw [← hevopt]; exact htail)
      · cases htail : scan_rule_tail env now rule p
            (apply_hysteresis rule p s).1 with
        | error e => rw [htail] at h; simp [Except.map] at h
        | ok pr =>
            rw [htail] at h
            simp only [Except.map, Except.ok.injEq] at h
            rw [← h] at hf ⊢
            simp only at hf ⊢
            cases hevopt : pr.2 with
            | none => rw [hevopt] at hf; simp at hf
            | some ev =>
                exact scan_rule_tail_fired_armed_false env now rule p _ pr.1
                  ev (by rw [← hevopt]; exact htail)

theorem scan_rule_step_noprice (env : Env) (now : Int) (rule : Rule)
    (s : RuleState) (henv : env.latest1mClose rule.symbol = none) :
    scan_rule_step env now rule s = .ok (s, none, false) := by
  simp only [scan_rule_step, henv]

theorem apply_hysteresis_atrb (rule : Rule) (hrt : rule.rtype = "atr_breakout")
    (p : ℚ) (s : RuleState) (hs : s.armed = false) :
    apply_hysteresis rule p s = (s, false) := by
  unfold apply_hysteresis
  rw [hs]
  simp [hrt, show pyStartsWith "atr_breakout" "pct" = false from by decide, hs]

theorem step_atrb_disarmed (rule : Rule) (hrt : rule.rtype = "atr_breakout")
    (env : Env) (now : Int) (s : RuleState) (hs : s.armed = false) :
    ∃ b, scan_rule_step env now rule s = .ok (s, none, b) := by
  cases henv : env.latest1mClose rule.symbol with
  | none => exact ⟨false, scan_rule_step_noprice env now rule s henv⟩
  | some p =>
      refine ⟨true, ?_⟩
      simp only [scan_rule_step, henv]
      rw [apply_hysteresis_atrb rule hrt p s hs]
      rw [if_neg (by simp [hrt] : ¬ (rule.rtype = "pct_up" ∨ rule.rtype = "pct_down"))]
      simp only [scan_rule_tail, hs]
      simp [Except.map]

/-- C10: an atr_breakout price-alert rule fires at most once over its
lifetime. Firing turns the state disarmed, and the hysteresis re-arm logic
handles only above/below/pct kinds, so from any disarmed state every
subsequent scan leaves the state disarmed and never fires, whatever the
price trace does. -/
theorem c10_atr_breakout_fires_at_most_once (rule : Rule)
    (hrt : rule.rtype = "atr_breakout") :
    (∀ (env : Env) (now : Int) (s : RuleState)
        (r : RuleState × Option Event × Bool),
        scan_rule_step env now rule s = .ok r → r.2.1.isSome = true →
        r.1.armed = false)
  ∧ (∀ (ticks : ℕ → ScanTick) (s : RuleState), s.armed = false →
      ∀ n, ruleTraceState rule ticks s n = .ok s ∧
        ruleTraceFired rule ticks s n = .ok false) := by
  constructor
  · intro env now s r h hf
    exact scan_rule_step_fired_armed_false env now rule s r h hf
  · intro ticks s hs n
    have hstate : ∀ m, ruleTraceState rule ticks s m = .ok s := by
      intro m
      induction m with
      | zero => rfl
      | succ m ihm =>
          obtain ⟨b, hb⟩ :=
            step_atrb_disarmed rule hrt (ticks m).env (ticks m).now s hs
          show (ruleTraceState rule ticks s m).bind _ = .ok s
          rw [ihm]
          simp [Except.bind, hb, Except.map]
    refine ⟨hstate n, ?_⟩
    obtain ⟨b, hb⟩ :=
      step_atrb_disarmed rule hrt (ticks n).env (ticks n).now s hs
    unfold ruleTraceFired
    rw [hstate n]
    simp [Except.bind, hb, Except.map]

/-- Concrete rule and trace for the C10 witness. -/
def c10Rule : Rule := { id := "r3", rtype := "atr_breakout" }

/-- Concrete ticks for the C10 witness. -/
def c10Ticks : ℕ → ScanTick :=
  fun i => { now := 10 * ((i : Int) + 1),
             env := { latest1mClose := fun _ => some 100 } }

/-- Witness for C10: from a disarmed state the rule never fires. -/
theorem c10_atr_breakout_fires_at_most_once_witness :
    c10Rule.rtype = "atr_breakout" ∧
    ruleTraceState c10Rule c10Ticks { armed := false } 3 =
      .ok { armed := false } ∧
    ruleTraceFired c10Rule c10Ticks { armed := false } 3 = .ok false :=
  ⟨rfl,
    ((c10_atr_breakout_fires_at_most_once c10Rule rfl).2 c10Ticks
      { armed := false } rfl 3).1,
    ((c10_atr_breakout_fires_at_most_once c10Rule rfl).2 c10Ticks
      { armed := false } rfl 3).2⟩

/-- A rule whose evaluation raises ValueError (unknown kind), for C3. -/
def c3BadRule : Rule := { id := "bad", symbol := "X", rtype := "bogus" }

/-- A healthy above rule that fires at price 150, for C3. -/
def c3GoodRule : Rule :=
  { id := "good", symbol := "X", rtype := "above", level := some 100 }

/-- Read snapshot for C3: every symbol trades at 150. -/
def c3Env : Env := { latest1mClose := fun _ => some 150 }

/-- C3 counterexample: the scan loop has no per-rule exception handler, so
a rule whose evaluation raises aborts the whole batch — the second,
healthy rule (which fires when scanned alone) is never evaluated and no
event is produced. -/
theorem c3_counterexample :
    scan_price_alerts c3Env 1000 [c3BadRule, c3GoodRule] (fun _ => none) =
      .error "Unsupported rule type: bogus" ∧
    scan_price_alerts c3Env 1000 [c3GoodRule] (fun _ => none) =
      .ok (save_state (fun _ => none) "good" (fireState {} 150 1000),
        [build_event c3GoodRule 150 1000]) :=
  ⟨rfl, rfl⟩

/-- C3 amended: within a scan batch, an exception while evaluating one
rule propagates out of `scan_price_alerts`, aborting the evaluation of
every remaining rule in the batch (isolation exists only per whole scan
task, in the scheduler). -/
theorem c3_amended_error_propagates (env : Env) (now : Int) (bad : Rule)
    (rest : List Rule) (states : String → Option RuleState) (e : String)
    (hbad : scan_rule_step env now bad (load_state states bad.id) = .error e) :
    scan_price_alerts env now (bad :: rest) states = .error e := by
  unfold scan_price_alerts scanGo
  rw [hbad]
  rfl

/-- Witness for the amended C3 at the concrete counterexample input. -/
theorem c3_amended_error_propagates_witness :
    scan_rule_step c3Env 1000 c3BadRule (load_state (fun _ => none) c3BadRule.id) =
      .error "Unsupported rule type: bogus" ∧
    scan_price_alerts c3Env 1000 [c3BadRule, c3GoodRule] (fun _ => none) =
      .error "Unsupported rule type: bogus" :=
  ⟨rfl, c3_amended_error_propagates c3Env 1000 c3BadRule [c3GoodRule]
    (fun _ => none) "Unsupported rule type: bogus" rfl⟩

/-- The trailing sample window after recording one more evaluation:
append, then keep the last `total = 4` entries. -/
def samplesAfter (s : RuleState) (b : Bool) : List Bool :=
  if 4 < (s.samples ++ [b]).length then pyLastSlice 4 (s.samples ++ [b])
  else s.samples ++ [b]

theorem samplesAfter_length (s : RuleState) (b : Bool) :
    (samplesAfter s b).length ≤ 4 := by
  unfold samplesAfter pyLastSlice
  split
  · rw [if_neg (by omega : ¬ (4 = 0))]
    simp only [List.length_drop]
    omega
  · omega

/-- C5: samples confirmation with total 4 and pass_required 3. `_confirm`
records the evaluation into the bounded trailing window (never more than 4
entries), cannot fire while fewer than 4 evaluations are recorded, and
once 4 are recorded fires exactly when at least 3 of the last 4 recorded
evaluations are true. -/
theorem c5_samples_confirmation (rule : Rule)
    (hm : rule.confirm_mode = some "samples")
    (ht : rule.confirm_samples_total = 4)
    (hpass : rule.confirm_samples_pass = some 3)
    (env : Env) (s : RuleState) (b : Bool) (now : Int) :
    (confirm env rule b s now =
      .ok ({ s with samples := samplesAfter s b },
        decide (4 ≤ (samplesAfter s b).length) &&
        decide (3 ≤ (samplesAfter s b).countP id)))
  ∧ (samplesAfter s b).length ≤ 4
  ∧ ((s.samples ++ [b]).length < 4 →
      (decide (4 ≤ (samplesAfter s b).length) &&
       decide (3 ≤ (samplesAfter s b).countP id)) = false)
  ∧ (4 ≤ (s.samples ++ [b]).length →
      ((decide (4 ≤ (samplesAfter s b).length) &&
        decide (3 ≤ (samplesAfter s b).countP id)) = true ↔
        3 ≤ (samplesAfter s b).countP id)) := by
  have hlen4 := samplesAfter_length s b
  have hlenchar : (samplesAfter s b).length =
      (if 4 < (s.samples ++ [b]).length then 4 else (s.samples ++ [b]).length) := by
    unfold samplesAfter pyLastSlice
    split
    · rw [if_neg (by omega : ¬ (4 = 0))]
      simp only [List.length_drop]
      omega
    · rfl
  refine ⟨?_, hlen4, ?_, ?_⟩
  · simp only [confirm, hm, ht, hpass]
    rw [if_neg (show ¬ truthyS (some "samples") = true → False from by
      intro h; exact h (by decide))]
    simp only [Option.getD_some]
    rw [if_neg (by simp : ¬ ("samples" = "time"))]
    rw [if_pos trivial]
    rw [show (if 4 < (s.samples ++ [b]).length then
          pyLastSlice 4 (s.samples ++ [b])
        else s.samples ++ [b]) = samplesAfter s b from rfl]
    by_cases hlt : (samplesAfter s b).length < 4
    · rw [if_pos hlt,
        decide_eq_false (show ¬ 4 ≤ (samplesAfter s b).length by omega),
        Bool.false_and]
    · rw [if_neg hlt,
        decide_eq_true (show 4 ≤ (samplesAfter s b).length by omega),
        Bool.true_and]
  · intro hsmall
    have : decide (4 ≤ (samplesAfter s b).length) = false := by
      apply decide_eq_false
      rw [hlenchar]
      rw [if_neg (by omega : ¬ 4 < (s.samples ++ [b]).length)]
      omega
    rw [this, Bool.false_and]
  · intro hbig
    have : decide (4 ≤ (samplesAfter s b).length) = true := by
      apply decide_eq_true
      rw [hlenchar]
      split <;> omega
    rw [this, Bool.true_and, decide_eq_true_eq]

/-- Rule and state for the C5 witness. -/
def c5Rule : Rule :=
  { id := "r2", rtype := "above", level := some 10,
    confirm_mode := some "samples", confirm_samples_total := 4,
    confirm_samples_pass := some 3 }

/-- Witness for C5: three prior samples true/false/true plus a true
evaluation fire (3 of the last 4 are true). -/
theorem c5_samples_confirmation_witness :
    c5Rule.confirm_mode = some "samples" ∧
    confirm {} c5Rule true { samples := [true, false, true] } 0 =
      .ok ({ ({ samples := [true, false, true] } : RuleState) with
             samples := samplesAfter { samples := [true, false, true] } true },
        decide (4 ≤ (samplesAfter { samples := [true, false, true] } true).length) &&
        decide (3 ≤ (samplesAfter { samples := [true, false, true] } true).countP id)) :=
  ⟨rfl, (c5_samples_confirmation c5Rule rfl rfl rfl {}
    { samples := [true, false, true] } true 0).1⟩

theorem trace_state_step (rule : Rule) (ticks : ℕ → ScanTick)
    (s0 : RuleState) (n : ℕ) (s : RuleState)
    (h : ruleTraceState rule ticks s0 n = .ok s) :
    ruleTraceState rule ticks s0 (n + 1) =
      (scan_rule_step (ticks n).env (ticks n).now rule s).map (·.1) := by
  show (ruleTraceState rule ticks s0 n).bind _ = _
  rw [h]
  rfl

theorem trace_fired_eq (rule : Rule) (ticks : ℕ → ScanTick)
    (s0 : RuleState) (n : ℕ) (s : RuleState)
    (h : ruleTraceState rule ticks s0 n = .ok s) :
    ruleTraceFired rule ticks s0 n =
      (scan_rule_step (ticks n).env (ticks n).now rule s).map
        (fun r => r.2.1.isSome) := by
  unfold ruleTraceFired
  rw [h]
  rfl

theorem trace_fired_ok_state (rule : Rule) (ticks : ℕ → ScanTick)
    (s0 : RuleState) (m : ℕ) (v : Bool)
    (h : ruleTraceFired rule ticks s0 m = .ok v) :
    ∃ s, ruleTraceState rule ticks s0 m = .ok s := by
  unfold ruleTraceFired at h
  cases hst : ruleTraceState rule ticks s0 m with
  | error e => rw [hst] at h; exact Except.noConfusion h
  | ok s => exact ⟨s, rfl⟩

theorem above_fired_true_facts (N : Int) (t2 : ℕ → Int) (e2 : ℕ → Env)
    (p2 : ℕ → ℚ) (s0 : RuleState) (m : ℕ) (s : RuleState)
    (he : (e2 m).latest1mClose "X" = some (p2 m))
    (hst : ruleTraceState (aboveRule N) (mkTicks t2 e2) s0 m = .ok s)
    (hf : ruleTraceFired (aboveRule N) (mkTicks t2 e2) s0 m = .ok true) :
    s.armed = true ∧ 105 ≤ p2 m ∧
    ruleTraceState (aboveRule N) (mkTicks t2 e2) s0 (m + 1) =
      .ok (fireState s (p2 m) (t2 m)) := by
  have hfe := trace_fired_eq (aboveRule N) (mkTicks t2 e2) s0 m s hst
  rw [hfe] at hf
  have hse := trace_state_step (aboveRule N) (mkTicks t2 e2) s0 m s hst
  have henv : ((mkTicks t2 e2) m).env.latest1mClose "X" = some (p2 m) := he
  cases harm : s.armed with
  | false =>
      rw [step_above_disarmed N _ _ (p2 m) s henv harm] at hf
      by_cases hp : p2 m ≤ 103
      · rw [if_pos hp] at hf
        simp [Except.map] at hf
      · rw [if_neg hp] at hf
        simp [Except.map] at hf
  | true =>
      rw [step_above_armed N _ _ (p2 m) s henv harm] at hf hse
      by_cases hcond : (105 : ℚ) ≤ p2 m
      · rw [if_pos hcond] at hf hse
        by_cases hN : N ≤ ((mkTicks t2 e2) m).now -
            sinceOf s ((mkTicks t2 e2) m).now
        · rw [if_pos hN] at hf hse
          exact ⟨rfl, hcond, hse⟩
        · rw [if_neg hN] at hf
          simp [Except.map] at hf
      · rw [if_neg hcond] at hf
        simp [Except.map] at hf

theorem trace_state_step2 (rule : Rule) (t2 : ℕ → Int) (e2 : ℕ → Env)
    (s0 : RuleState) (n : ℕ) (s : RuleState)
    (h : ruleTraceState rule (mkTicks t2 e2) s0 n = .ok s) :
    ruleTraceState rule (mkTicks t2 e2) s0 (n + 1) =
      (scan_rule_step (e2 n) (t2 n) rule s).map (·.1) :=
  trace_state_step rule (mkTicks t2 e2) s0 n s h

theorem trace_fired_eq2 (rule : Rule) (t2 : ℕ → Int) (e2 : ℕ → Env)
    (s0 : RuleState) (n : ℕ) (s : RuleState)
    (h : ruleTraceState rule (mkTicks t2 e2) s0 n = .ok s) :
    ruleTraceFired rule (mkTicks t2 e2) s0 n =
      (scan_rule_step (e2 n) (t2 n) rule s).map (fun r => r.2.1.isSome) :=
  trace_fired_eq rule (mkTicks t2 e2) s0 n s h

/-- C2: the above rule with level 105, hysteresis 2 and time confirmation
N. Part one: on a rising price trace with strictly increasing positive
scan times that crosses the level at scan `c` and first satisfies the
N-second confirmation at scan `k0`, the rule fires exactly at scan `k0`
(never before the crossing, exactly once, never again). Part two: on any
trace, between two fires there is an intermediate scan whose price is at
or below 103 = level - hysteresis (the re-arm), and any fire happens at a
price at or above 105. -/
theorem c2_above_hysteresis_time (N : Int) (_hN : 0 ≤ N) (n : ℕ)
    (t : ℕ → Int) (p : ℕ → ℚ) (e : ℕ → Env)
    (he : ∀ i, i < n → (e i).latest1mClose "X" = some (p i))
    (htpos : ∀ i, i < n → 0 < t i)
    (_htmono : ∀ j, j < n → ∀ i, i < j → t i < t j)
    (hpmono : ∀ j, j < n → ∀ i, i ≤ j → p i ≤ p j)
    (c : ℕ) (hc : c < n) (hcross : 105 ≤ p c)
    (hbefore : ∀ i, i < c → p i < 105)
    (k0 : ℕ) (hck : c ≤ k0) (hk0 : k0 < n)
    (hconf : N ≤ t k0 - t c)
    (hmin : ∀ i, i < k0 → c ≤ i → t i - t c < N) :
    (∀ i, i < n →
      ruleTraceFired (aboveRule N) (mkTicks t e) {} i = .ok (decide (i = k0)))
  ∧ (∀ (t2 : ℕ → Int) (e2 : ℕ → Env) (p2 : ℕ → ℚ) (s0 : RuleState)
      (i k : ℕ),
      (∀ j, j ≤ k → (e2 j).latest1mClose "X" = some (p2 j)) →
      i < k →
      ruleTraceFired (aboveRule N) (mkTicks t2 e2) s0 i = .ok true →
      ruleTraceFired (aboveRule N) (mkTicks t2 e2) s0 k = .ok true →
      (∃ j, i < j ∧ j ≤ k ∧ p2 j ≤ 103) ∧ 105 ≤ p2 k) := by
  constructor
  · -- part one
    set fk : RuleState :=
      { armed := false, baseline := some (p k0),
        last_trigger_ts := some (t k0) } with hfk
    set sinceState : RuleState := { condition_since := some (t c) } with hsS
    have htcne : t c ≠ 0 := by
      have := htpos c hc
      omega
    -- phase A: before the crossing the default state persists
    have hA : ∀ i, i ≤ c →
        ruleTraceState (aboveRule N) (mkTicks t e) {} i = .ok {} := by
      intro i hi
      induction i with
      | zero => rfl
      | succ i ih =>
          have hic : i < c := by omega
          have hstep := trace_state_step2 (aboveRule N) t e {} i {}
            (ih (by omega))
          rw [step_above_armed N (e i) (t i) (p i) {} (he i (by omega)) rfl]
            at hstep
          rw [if_neg (by
            have := hbefore i hic
            linarith : ¬ (105 : ℚ) ≤ p i)] at hstep
          exact hstep
    have hAf : ∀ i, i < c →
        ruleTraceFired (aboveRule N) (mkTicks t e) {} i = .ok false := by
      intro i hi
      have hfe := trace_fired_eq2 (aboveRule N) t e {} i {} (hA i (by omega))
      rw [step_above_armed N (e i) (t i) (p i) {} (he i (by omega)) rfl] at hfe
      rw [if_neg (by
        have := hbefore i hi
        linarith : ¬ (105 : ℚ) ≤ p i)] at hfe
      simpa [Except.map] using hfe
    -- phase B: once crossed, the state pins condition_since to t c
    have hB : ∀ i, c < i → i ≤ k0 →
        ruleTraceState (aboveRule N) (mkTicks t e) {} i = .ok sinceState := by
      intro i hci hik
      induction i with
      | zero => omega
      | succ i ih =>
          by_cases hic : i = c
          · subst hic
            have hstep := trace_state_step2 (aboveRule N) t e {} i {}
              (hA i le_rfl)
            rw [step_above_armed N (e i) (t i) (p i) {} (he i (by omega)) rfl]
              at hstep
            rw [if_pos hcross] at hstep
            have hsince : sinceOf {} (t i) = t i := by
              simp [sinceOf, truthyI]
            rw [hsince] at hstep
            rw [if_neg (by
              have := hmin i (by omega) le_rfl
              omega : ¬ N ≤ t i - t i)] at hstep
            exact hstep
          · have hci2 : c < i := by omega
            have hstep := trace_state_step2 (aboveRule N) t e {} i sinceState
              (ih hci2 (by omega))
            rw [step_above_armed N (e i) (t i) (p i) sinceState
              (he i (by omega)) rfl] at hstep
            have hpi : (105 : ℚ) ≤ p i :=
              le_trans hcross (hpmono i (by omega) c (by omega))
            rw [if_pos hpi] at hstep
            have hsince : sinceOf sinceState (t i) = t c := by
              simp [sinceOf, hsS, truthyI, htcne]
            rw [hsince] at hstep
            rw [if_neg (by
              have := hmin i (by omega) (by omega)
              omega : ¬ N ≤ t i - t c)] at hstep
            exact hstep
    -- phase B firing: no fire strictly between crossing and confirmation
    have hBf : ∀ i, c ≤ i → i < k0 →
        ruleTraceFired (aboveRule N) (mkTicks t e) {} i = .ok false := by
      intro i hci hik
      by_cases hic : i = c
      · subst hic
        have hfe := trace_fired_eq2 (aboveRule N) t e {} i {} (hA i le_rfl)
        rw [step_above_armed N (e i) (t i) (p i) {} (he i (by omega)) rfl]
          at hfe
        rw [if_pos hcross] at hfe
        have hsince : sinceOf {} (t i) = t i := by simp [sinceOf, truthyI]
        rw [hsince] at hfe
        rw [if_neg (by
          have := hmin i (by omega) le_rfl
          omega : ¬ N ≤ t i - t i)] at hfe
        simpa [Except.map] using hfe
      · have hci2 : c < i := by omega
        have hfe := trace_fired_eq2 (aboveRule N) t e {} i sinceState
          (hB i hci2 (by omega))
        rw [step_above_armed N (e i) (t i) (p i) sinceState
          (he i (by omega)) rfl] at hfe
        have hpi : (105 : ℚ) ≤ p i :=
          le_trans hcross (hpmono i (by omega) c (by omega))
        rw [if_pos hpi] at hfe
        have hsince : sinceOf sinceState (t i) = t c := by
          simp [sinceOf, hsS, truthyI, htcne]
        rw [hsince] at hfe
        rw [if_neg (by
          have := hmin i hik (by omega)
          omega : ¬ N ≤ t i - t c)] at hfe
        simpa [Except.map] using hfe
    -- the fire at k0
    have hk0state : ruleTraceState (aboveRule N) (mkTicks t e) {} k0 =
        .ok (if k0 = c then {} else sinceState) := by
      by_cases hkc : k0 = c
      · rw [if_pos hkc, hkc]
        exact hA c le_rfl
      · rw [if_neg hkc]
        exact hB k0 (by omega) le_rfl
    have hsincek0 :
        sinceOf (if k0 = c then {} else sinceState) (t k0) = t c := by
      by_cases hkc : k0 = c
      · rw [if_pos hkc, hkc]
        simp [sinceOf, truthyI]
      · rw [if_neg hkc]
        simp [sinceOf, hsS, truthyI, htcne]
    have hk0armed :
        (if k0 = c then ({} : RuleState) else sinceState).armed = true := by
      by_cases hkc : k0 = c
      · rw [if_pos hkc]
      · rw [if_neg hkc]
    have hpk0 : (105 : ℚ) ≤ p k0 := le_trans hcross (hpmono k0 hk0 c hck)
    have hk0fired :
        ruleTraceFired (aboveRule N) (mkTicks t e) {} k0 = .ok true := by
      have hfe := trace_fired_eq2 (aboveRule N) t e {} k0 _ hk0state
      rw [step_above_armed N (e k0) (t k0) (p k0) _ (he k0 hk0) hk0armed]
        at hfe
      rw [if_pos hpk0, hsincek0, if_pos hconf] at hfe
      simpa [Except.map] using hfe
    have hk0next :
        ruleTraceState (aboveRule N) (mkTicks t e) {} (k0 + 1) = .ok fk := by
      have hstep := trace_state_step2 (aboveRule N) t e {} k0 _ hk0state
      rw [step_above_armed N (e k0) (t k0) (p k0) _ (he k0 hk0) hk0armed]
        at hstep
      rw [if_pos hpk0, hsincek0, if_pos hconf] at hstep
      rw [hstep]
      by_cases hkc : k0 = c
      · rw [if_pos hkc]; rfl
      · rw [if_neg hkc]; rfl
    -- phase D: disarmed forever after, prices stay above 103
    have hD : ∀ i, k0 < i → i ≤ n →
        ruleTraceState (aboveRule N) (mkTicks t e) {} i = .ok fk := by
      intro i hki hin
      induction i with
      | zero => omega
      | succ i ih =>
          by_cases hik : i = k0
          · subst hik
            exact hk0next
          · have hki2 : k0 < i := by omega
            have hstep := trace_state_step2 (aboveRule N) t e {} i fk
              (ih hki2 (by omega))
            rw [step_above_disarmed N (e i) (t i) (p i) fk
              (he i (by omega)) rfl] at hstep
            rw [if_neg (by
              have hpi : (105 : ℚ) ≤ p i :=
                le_trans hcross (hpmono i (by omega) c (by omega))
              linarith : ¬ p i ≤ 103)] at hstep
            exact hstep
    have hDf : ∀ i, k0 < i → i < n →
        ruleTraceFired (aboveRule N) (mkTicks t e) {} i = .ok false := by
      intro i hki hin
      have hfe := trace_fired_eq2 (aboveRule N) t e {} i fk
        (hD i hki (by omega))
      rw [step_above_disarmed N (e i) (t i) (p i) fk (he i hin) rfl] at hfe
      rw [if_neg (by
        have hpi : (105 : ℚ) ≤ p i :=
          le_trans hcross (hpmono i (by omega) c (by omega))
        linarith : ¬ p i ≤ 103)] at hfe
      simpa [Except.map] using hfe
    intro i hin
    by_cases hik : i = k0
    · subst hik
      rw [hk0fired]
      simp
    · rw [show decide (i = k0) = false from decide_eq_false hik]
      rcases lt_trichotomy i k0 with hlt | heq | hgt
      · by_cases hic : i < c
        · exact hAf i hic
        · exact hBf i (by omega) hlt
      · omega
      · exact hDf i hgt hin
  · -- part two: between two fires the price must dip to 103 and recover
    intro t2 e2 p2 s0 i k he2 hik hfi hfk
    obtain ⟨si, hsi⟩ := trace_fired_ok_state _ _ _ i true hfi
    obtain ⟨sk, hsk⟩ := trace_fired_ok_state _ _ _ k true hfk
    have hfacts_i := above_fired_true_facts N t2 e2 p2 s0 i si
      (he2 i (by omega)) hsi hfi
    have hfacts_k := above_fired_true_facts N t2 e2 p2 s0 k sk
      (he2 k le_rfl) hsk hfk
    refine ⟨?_, hfacts_k.2.1⟩
    by_contra hno
    push_neg at hno
    have hchain : ∀ j, i + 1 ≤ j → j ≤ k →
        ∃ s, ruleTraceState (aboveRule N) (mkTicks t2 e2) s0 j = .ok s ∧
          s.armed = false := by
      intro j hj1 hjk
      induction j, hj1 using Nat.le_induction with
      | base =>
          exact ⟨fireState si (p2 i) (t2 i), hfacts_i.2.2, rfl⟩
      | succ j hj ih =>
          obtain ⟨s, hs, harm⟩ := ih (by omega)
          have hstep := trace_state_step2 (aboveRule N) t2 e2 s0 j s hs
          rw [step_above_disarmed N (e2 j) (t2 j) (p2 j)
            s (he2 j (by omega)) harm] at hstep
          rw [if_neg (by
            have := hno j (by omega) (by omega)
            linarith : ¬ p2 j ≤ 103)] at hstep
          exact ⟨s, hstep, harm⟩
    obtain ⟨s, hs, harm⟩ := hchain k (by omega) le_rfl
    rw [hs] at hsk
    have hssk : s = sk := Except.ok.inj hsk
    rw [hssk] at harm
    rw [hfacts_k.1] at harm
    exact Bool.noConfusion harm

/-- Scan times of the C2 witness trace. -/
def c2T : ℕ → Int := fun i => 10 * ((i : Int) + 1)

/-- Prices of the C2 witness trace: rising, crossing 105 at scan 2. -/
def c2P : ℕ → ℚ := fun i => [100, 104, 106, 107, 108].getD i 108

/-- Read snapshots of the C2 witness trace. -/
def c2E : ℕ → Env := fun i => { latest1mClose := fun _ => some (c2P i) }

/-- Witness for C2: with N = 15 the rule fires exactly at scan 4 (time 50,
crossing at time 30) and not at scan 0. -/
theorem c2_above_hysteresis_time_witness :
    (0 : Int) ≤ 15 ∧
    ruleTraceFired (aboveRule 15) (mkTicks c2T c2E) {} 4 =
      .ok (decide (4 = 4)) ∧
    ruleTraceFired (aboveRule 15) (mkTicks c2T c2E) {} 0 =
      .ok (decide (0 = 4)) := by
  have h := c2_above_hysteresis_time 15 (by decide) 5 c2T c2P c2E
    (fun i _ => rfl)
    (by intro i hi; simp only [c2T]; omega)
    (by intro j hj i hij; simp only [c2T]; omega)
    (by decide)
    2 (by decide) (by decide) (by decide)
    4 (by decide) (by decide) (by decide) (by decide)
  exact ⟨by decide, h.1 4 (by decide), h.1 0 (by decide)⟩

/-- Trend-channel thresholds (`rules/config_loader.py` TrendChannelConfig,
defaults as in the source). -/
structure TrendChannelConfig where
  window : ℕ := 30
  r2_min : ℚ := 3 / 5
  slope_norm_min : ℚ := 3 / 10000
  slope_norm_max : ℚ := 3 / 1000
  resid_atr_max : ℚ := 1
  pullback_atr_max : ℚ := 1 / 2
  breakout_atr_mult : ℚ := 3 / 2
  vol_confirm_z : ℚ := 2
deriving DecidableEq, Repr, Inhabited

/-- Trend labels: SUSTAIN, or BREAKOUT with the recorded direction. -/
inductive TrendLabel where
  | sustain
  | breakoutUp
  | breakoutDown
deriving DecidableEq, Repr

/-- `rules/trend_channel.py` `_cooldown_key`. -/
def cooldownKeyTrend (symbol timeframe label : String) : String :=
  "trend:" ++ symbol ++ ":" ++ timeframe ++ ":" ++ label

/-- `rules/trend_channel.py` `_passes_cooldown` over a cooldown store
mapping keys to the last fire timestamp (no row means no prior fire). -/
def passes_cooldown (store : String → Option Int) (key : String)
    (cooldown_minutes now : Int) : Bool :=
  match store key with
  | none => true
  | some last => decide (cooldown_minutes * 60 ≤ now - last)

/-- `upsert_cooldown_state`: set the last fire timestamp of the key. -/
def update_cooldown (store : String → Option Int) (key : String)
    (now : Int) : String → Option Int :=
  fun k => if k = key then some now else store k

/-- Fire gate of `scan_trend_channel` (after a label was assigned): skip
when the per-(symbol, label, timeframe) cooldown is active, otherwise
insert the event and update the cooldown state. The boolean is whether an
AlertEvent was emitted. -/
def trendFireStep (store : String → Option Int)
    (symbol timeframe label : String) (cooldown_minutes now : Int) :
    (String → Option Int) × Bool :=
  let key := cooldownKeyTrend symbol timeframe label
  if passes_cooldown store key cooldown_minutes now then
    (update_cooldown store key now, true)
  else (store, false)

/-- Deviation of the subject close from the channel prediction
(`predicted_next` of `scan_trend_channel`). -/
def deviationOf (current : Bar) (future_pred : Bool)
    (slope mid_price : ℚ) : ℚ :=
  current.close - (if future_pred then mid_price + slope else mid_price)

/-- Classification step of `scan_trend_channel` (the SUSTAIN / volume
confirmation / BREAKOUT branch): history are the regression bars, the
subject bar follows them. -/
def classify_trend (sqrtQ : ℚ → ℚ) (cfg : TrendChannelConfig)
    (history : List Bar) (current_bar : Bar) (future_pred : Bool)
    (slope mid_price atr_last : ℚ) : Option TrendLabel :=
  let deviation := deviationOf current_bar future_pred slope mid_price
  if |deviation| ≤ atr_last * cfg.pullback_atr_max then some .sustain
  else
    let z0 := zscore_volume sqrtQ current_bar.notional_usd
      (history.map (·.notional_usd))
    let z : Option ℚ :=
      match z0 with
      | some zv => some zv
      | none =>
          let baseline := history.map (·.notional_usd)
          let baseline_mean := if baseline = [] then 0 else mean baseline
          if baseline_mean ≠ 0 ∧
              baseline_mean * cfg.vol_confirm_z ≤ current_bar.notional_usd then
            some cfg.vol_confirm_z
          else none
    match z with
    | none => none
    | some zv =>
        if zv < cfg.vol_confirm_z then none
        else if cfg.breakout_atr_mult * atr_last ≤ deviation then
          some .breakoutUp
        else if deviation ≤ -(cfg.breakout_atr_mult * atr_last) then
          some .breakoutDown
        else none

/-- Regression gates of `scan_trend_channel` (lines before the
classification): R² floor, normalized slope band, residual/ATR cap. -/
def trend_gates_pass (cfg : TrendChannelConfig)
    (slope r2 resid_std atr_last lastClose : ℚ) : Bool :=
  let slope_norm := |slope / lastClose|
  decide (cfg.r2_min ≤ r2) && decide (cfg.slope_norm_min ≤ slope_norm) &&
  decide (slope_norm ≤ cfg.slope_norm_max) &&
  decide (resid_std ≤ atr_last * cfg.resid_atr_max)

/-- Per-symbol label decision of `scan_trend_channel`, from the regression
features on: gates first, then classification; `none` means the symbol
emits nothing this scan. -/
def trend_eval (sqrtQ : ℚ → ℚ) (cfg : TrendChannelConfig)
    (history : List Bar) (current_bar : Bar) (future_pred : Bool)
    (slope r2 resid_std mid_price atr_last lastClose : ℚ) :
    Option TrendLabel :=
  if trend_gates_pass cfg slope r2 resid_std atr_last lastClose then
    classify_trend sqrtQ cfg history current_bar future_pred slope mid_price
      atr_last
  else none

/-- The volume confirmation of the claim: notional z-score at or above
`vol_confirm_z`, or — when the z-score is undefined — a nonzero baseline
mean with current notional at or above `vol_confirm_z` times it. -/
def volumeConfirmed (sqrtQ : ℚ → ℚ) (cfg : TrendChannelConfig)
    (history : List Bar) (current_bar : Bar) : Bool :=
  match zscore_volume sqrtQ current_bar.notional_usd
      (history.map (·.notional_usd)) with
  | some zv => decide (cfg.vol_confirm_z ≤ zv)
  | none =>
      let baseline_mean :=
        if history.map (·.notional_usd) = [] then 0
        else mean (history.map (·.notional_usd))
      decide (baseline_mean ≠ 0) &&
      decide (baseline_mean * cfg.vol_confirm_z ≤ current_bar.notional_usd)

/-- C6: trend-channel cooldown. If a scan fires a label for a symbol and
timeframe at time t1 (cooldown passes), and a second scan assigns the same
label within cooldown_minutes × 60 seconds of the recorded last_fire_ts,
then only the first scan emits an AlertEvent: the second is skipped by the
per-(symbol, label, timeframe) gate and leaves the cooldown state
untouched; and every fire updates last_fire_ts to the firing time. -/
theorem c6_trend_cooldown (store : String → Option Int)
    (symbol timeframe label : String) (cd t1 t2 : Int)
    (hfirst : passes_cooldown store
      (cooldownKeyTrend symbol timeframe label) cd t1 = true)
    (hwithin : t2 - t1 < cd * 60) :
    (trendFireStep store symbol timeframe label cd t1).2 = true
  ∧ (trendFireStep store symbol timeframe label cd t1).1
      (cooldownKeyTrend symbol timeframe label) = some t1
  ∧ (trendFireStep (trendFireStep store symbol timeframe label cd t1).1
      symbol timeframe label cd t2).2 = false
  ∧ (trendFireStep (trendFireStep store symbol timeframe label cd t1).1
      symbol timeframe label cd t2).1 =
      (trendFireStep store symbol timeframe label cd t1).1
  ∧ (∀ (st : String → Option Int) (now : Int),
      (trendFireStep st symbol timeframe label cd now).2 = true →
      (trendFireStep st symbol timeframe label cd now).1
        (cooldownKeyTrend symbol timeframe label) = some now) := by
  have h1 : trendFireStep store symbol timeframe label cd t1 =
      (update_cooldown store (cooldownKeyTrend symbol timeframe label) t1,
        true) := by
    simp only [trendFireStep]
    rw [if_pos hfirst]
  have hu : update_cooldown store (cooldownKeyTrend symbol timeframe label) t1
      (cooldownKeyTrend symbol timeframe label) = some t1 := by
    simp [update_cooldown]
  have h2pass : passes_cooldown
      (update_cooldown store (cooldownKeyTrend symbol timeframe label) t1)
      (cooldownKeyTrend symbol timeframe label) cd t2 = false := by
    simp only [passes_cooldown]
    rw [hu]
    exact decide_eq_false (by omega)
  have h2 : trendFireStep
      (update_cooldown store (cooldownKeyTrend symbol timeframe label) t1)
      symbol timeframe label cd t2 =
      (update_cooldown store (cooldownKeyTrend symbol timeframe label) t1,
        false) := by
    simp only [trendFireStep]
    rw [if_neg (by rw [h2pass]; exact Bool.false_ne_true)]
  refine ⟨by rw [h1], by rw [h1]; exact hu, ?_, ?_, ?_⟩
  · simp only [h1]
    rw [h2]
  · simp only [h1]
    rw [h2]
  · intro st now h
    simp only [trendFireStep] at h ⊢
    by_cases hp : passes_cooldown st
        (cooldownKeyTrend symbol timeframe label) cd now = true
    · rw [if_pos hp]
      simp [update_cooldown]
    · rw [if_neg hp] at h
      exact absurd h Bool.false_ne_true

/-- Witness for C6: first fire at 100, second scan at 400 with a
10-minute cooldown is skipped. -/
theorem c6_trend_cooldown_witness :
    passes_cooldown (fun _ => none)
      (cooldownKeyTrend "BTCUSDT" "5m" "BREAKOUT") 10 100 = true ∧
    ((trendFireStep (fun _ => none) "BTCUSDT" "5m" "BREAKOUT" 10 100).2 = true
    ∧ (trendFireStep (fun _ => none) "BTCUSDT" "5m" "BREAKOUT" 10 100).1
        (cooldownKeyTrend "BTCUSDT" "5m" "BREAKOUT") = some 100
    ∧ (trendFireStep
        (trendFireStep (fun _ => none) "BTCUSDT" "5m" "BREAKOUT" 10 100).1
        "BTCUSDT" "5m" "BREAKOUT" 10 400).2 = false
    ∧ (trendFireStep
        (trendFireStep (fun _ => none) "BTCUSDT" "5m" "BREAKOUT" 10 100).1
        "BTCUSDT" "5m" "BREAKOUT" 10 400).1 =
        (trendFireStep (fun _ => none) "BTCUSDT" "5m" "BREAKOUT" 10 100).1
    ∧ (∀ (st : String → Option Int) (now : Int),
        (trendFireStep st "BTCUSDT" "5m" "BREAKOUT" 10 now).2 = true →
        (trendFireStep st "BTCUSDT" "5m" "BREAKOUT" 10 now).1
          (cooldownKeyTrend "BTCUSDT" "5m" "BREAKOUT") = some now)) :=
  ⟨rfl, c6_trend_cooldown (fun _ => none) "BTCUSDT" "5m" "BREAKOUT"
    10 100 400 rfl (by decide)⟩

/-- C8: trend-channel classification after the regression gates pass. The
label is SUSTAIN exactly when |deviation| ≤ pullback_atr_max × ATR;
otherwise a label is assigned only with volume confirmation and a
deviation beyond ±breakout_atr_mult × ATR (direction up/down), and in
every other case no label is assigned (the symbol emits nothing). -/
theorem c8_trend_classification (sqrtQ : ℚ → ℚ) (cfg : TrendChannelConfig)
    (history : List Bar) (current_bar : Bar) (future_pred : Bool)
    (slope r2 resid_std mid_price atr_last lastClose : ℚ)
    (hgate : trend_gates_pass cfg slope r2 resid_std atr_last lastClose = true)
    (hpos : 0 < cfg.breakout_atr_mult * atr_last) :
    (trend_eval sqrtQ cfg history current_bar future_pred slope r2 resid_std
        mid_price atr_last lastClose = some .sustain ↔
      |deviationOf current_bar future_pred slope mid_price| ≤
        atr_last * cfg.pullback_atr_max)
  ∧ (trend_eval sqrtQ cfg history current_bar future_pred slope r2 resid_std
        mid_price atr_last lastClose = some .breakoutUp ↔
      (¬ |deviationOf current_bar future_pred slope mid_price| ≤
          atr_last * cfg.pullback_atr_max
       ∧ volumeConfirmed sqrtQ cfg history current_bar = true
       ∧ cfg.breakout_atr_mult * atr_last ≤
          deviationOf current_bar future_pred slope mid_price))
  ∧ (trend_eval sqrtQ cfg history current_bar future_pred slope r2 resid_std
        mid_price atr_last lastClose = some .breakoutDown ↔
      (¬ |deviationOf current_bar future_pred slope mid_price| ≤
          atr_last * cfg.pullback_atr_max
       ∧ volumeConfirmed sqrtQ cfg history current_bar = true
       ∧ deviationOf current_bar future_pred slope mid_price ≤
          -(cfg.breakout_atr_mult * atr_last)))
  ∧ (trend_eval sqrtQ cfg history current_bar future_pred slope r2 resid_std
        mid_price atr_last lastClose = none ↔
      (¬ |deviationOf current_bar future_pred slope mid_price| ≤
          atr_last * cfg.pullback_atr_max
       ∧ ¬ (volumeConfirmed sqrtQ cfg history current_bar = true
            ∧ (cfg.breakout_atr_mult * atr_last ≤
                deviationOf current_bar future_pred slope mid_price
               ∨ deviationOf current_bar future_pred slope mid_price ≤
                -(cfg.breakout_atr_mult * atr_last))))) := by
  unfold trend_eval
  rw [if_pos hgate]
  unfold classify_trend
  by_cases hsus : |deviationOf current_bar future_pred slope mid_price| ≤
      atr_last * cfg.pullback_atr_max
  · rw [if_pos hsus]
    refine ⟨by simp [hsus], by simp [hsus], by simp [hsus], by simp [hsus]⟩
  · rw [if_neg hsus]
    cases hz0 : zscore_volume sqrtQ current_bar.notional_usd
        (history.map (·.notional_usd)) with
    | some zv =>
        simp only [hz0]
        by_cases hzthr : zv < cfg.vol_confirm_z
        · rw [if_pos hzthr]
          have hvc : volumeConfirmed sqrtQ cfg history current_bar = false := by
            simp only [volumeConfirmed, hz0]
            exact decide_eq_false (not_le.mpr hzthr)
          refine ⟨by simp [hsus], by simp [hvc], by simp [hvc],
            by simp [hsus, hvc]⟩
        · rw [if_neg hzthr]
          have hvc : volumeConfirmed sqrtQ cfg history current_bar = true := by
            simp only [volumeConfirmed, hz0]
            exact decide_eq_true (not_lt.mp hzthr)
          by_cases hup : cfg.breakout_atr_mult * atr_last ≤
              deviationOf current_bar future_pred slope mid_price
          · rw [if_pos hup]
            have hnd : ¬ deviationOf current_bar future_pred slope mid_price ≤
                -(cfg.breakout_atr_mult * atr_last) := by linarith
            refine ⟨by simp [hsus], by simp [hsus, hvc, hup],
              by simp [hnd], by simp [hvc, hup]⟩
          · rw [if_neg hup]
            by_cases hdn : deviationOf current_bar future_pred slope mid_price ≤
                -(cfg.breakout_atr_mult * atr_last)
            · rw [if_pos hdn]
              refine ⟨by simp [hsus], by simp [hup],
                by simp [hsus, hvc, hdn], by simp [hvc, hdn]⟩
            · rw [if_neg hdn]
              refine ⟨by simp [hsus], by simp [hup], by simp [hdn],
                by simp [hsus, hup, hdn]⟩
    | none =>
        simp only [hz0]
        by_cases hfb : (if history.map (·.notional_usd) = [] then 0
              else mean (history.map (·.notional_usd))) ≠ 0 ∧
            (if history.map (·.notional_usd) = [] then 0
              else mean (history.map (·.notional_usd))) * cfg.vol_confirm_z ≤
              current_bar.notional_usd
        · rw [if_pos hfb]
          simp only [if_neg (lt_irrefl cfg.vol_confirm_z)]
          have hvc : volumeConfirmed sqrtQ cfg history current_bar = true := by
            simp only [volumeConfirmed, hz0]
            rw [decide_eq_true hfb.1, decide_eq_true hfb.2]
            rfl
          by_cases hup : cfg.breakout_atr_mult * atr_last ≤
              deviationOf current_bar future_pred slope mid_price
          · rw [if_pos hup]
            have hnd : ¬ deviationOf current_bar future_pred slope mid_price ≤
                -(cfg.breakout_atr_mult * atr_last) := by linarith
            refine ⟨by simp [hsus], by simp [hsus, hvc, hup],
              by simp [hnd], by simp [hvc, hup]⟩
          · rw [if_neg hup]
            by_cases hdn : deviationOf current_bar future_pred slope mid_price ≤
                -(cfg.breakout_atr_mult * atr_last)
            · rw [if_pos hdn]
              refine ⟨by simp [hsus], by simp [hup],
                by simp [hsus, hvc, hdn], by simp [hvc, hdn]⟩
            · rw [if_neg hdn]
              refine ⟨by simp [hsus], by simp [hup], by simp [hdn],
                by simp [hsus, hup, hdn]⟩
        · rw [if_neg hfb]
          have hvc : volumeConfirmed sqrtQ cfg history current_bar = false := by
            simp only [volumeConfirmed, hz0]
            rcases Decidable.not_and_iff_or_not.mp hfb with h | h
            · rw [decide_eq_false h]
              rfl
            · rw [decide_eq_false h]
              simp
          refine ⟨by simp [hsus], by simp [hvc], by simp [hvc],
            by simp [hsus, hvc]⟩

/-- History bars for the C8 witness (notional baseline 10, 20). -/
def c8Hist : List Bar := [{ notional_usd := 10 }, { notional_usd := 20 }]

/-- Subject bar for the C8 witness: close far above the channel with ten
times the baseline notional. -/
def c8Cur : Bar := { close := 105, notional_usd := 40 }

/-- Witness for C8: gates pass and the deviation of +5 with volume
confirmation classifies BREAKOUT up. -/
theorem c8_trend_classification_witness :
    trend_gates_pass {} (1 / 10) 1 1 2 100 = true ∧
    (trend_eval (fun _ => 5) {} c8Hist c8Cur false (1 / 10) 1 1 100 2 100 =
        some .breakoutUp ↔
      (¬ |deviationOf c8Cur false (1 / 10) 100| ≤
          2 * ({} : TrendChannelConfig).pullback_atr_max
       ∧ volumeConfirmed (fun _ => 5) {} c8Hist c8Cur = true
       ∧ ({} : TrendChannelConfig).breakout_atr_mult * 2 ≤
          deviationOf c8Cur false (1 / 10) 100)) := by
  have habs : |((1 : ℚ) / 10) / 100| = 1 / 1000 := by
    rw [abs_of_pos (by norm_num)]
    norm_num
  have hg : trend_gates_pass {} (1 / 10) 1 1 2 100 = true := by
    simp only [trend_gates_pass]
    rw [habs]
    norm_num
  exact ⟨hg,
    (c8_trend_classification (fun _ => 5) {} c8Hist c8Cur false (1 / 10) 1 1
      100 2 100 hg (by norm_num)).2.1⟩

/-- Volume-spike z-score thresholds
(`rules/config_loader.py` VolumeSpikeZScoreConfig). -/
structure VolumeSpikeZScoreConfig where
  lookback_windows : ℕ := 96
  z_thr : ℚ := 3
  min_notional_usd : ℚ := 50000
  min_abs_return : ℚ := 1 / 200
deriving DecidableEq, Repr, Inhabited

/-- One multiplier-mode bucket
(`rules/config_loader.py` VolumeSpikeBucketConfig). -/
structure VolumeSpikeBucketConfig where
  symbols : List String := []
  mult : ℚ := 3
  min_notional_usd : ℚ := 100000
deriving DecidableEq, Repr, Inhabited

/-- Multiplier-mode settings
(`rules/config_loader.py` VolumeSpikeMultiplierConfig); buckets keep the
configuration order of the Python dict values. -/
structure VolumeSpikeMultiplierConfig where
  buckets : List VolumeSpikeBucketConfig := []
  min_abs_return : ℚ := 1 / 200
deriving DecidableEq, Repr, Inhabited

/-- The two volume-spike modes. -/
inductive VolumeSpikeMode where
  | zscore
  | multiplier
deriving DecidableEq, Repr, Inhabited

/-- The slice of AppConfig `run_volume_spike` consumes. -/
structure AppVolCfg where
  mode : VolumeSpikeMode := .zscore
  zscore : VolumeSpikeZScoreConfig := {}
  multiplier : VolumeSpikeMultiplierConfig := {}
  cooldown_minutes : Int := 30
deriving DecidableEq, Repr, Inhabited

/-- `rules/volume_spike.py` `_cooldown_key`. -/
def vol_cooldown_key (symbol timeframe : String) : String :=
  "volume_spike:" ++ symbol ++ ":" ++ timeframe

/-- Baseline bars of the spike handlers: Python `bars[-lookback-1:-1]`
(the `lookback` bars preceding the current one). -/
def volBaseline (lookback : ℕ) (bars : List Bar) : List Bar :=
  ((bars.drop (bars.length - (lookback + 1)))).dropLast

/-- Return of the current close against the previous close (the close of
the last baseline bar); a zero previous close is falsy and yields 0. -/
def volRet (lookback : ℕ) (bars : List Bar) : ℚ :=
  let prev_close := ((volBaseline lookback bars).getLastD default).close
  if prev_close ≠ 0 then (bars.getLastD default).close / prev_close - 1
  else 0

/-- The event `_create_event` builds (the detail JSON is abbreviated to
its notional entry in `detail_price`). -/
def vol_event (symbol timeframe : String) (bar : Bar) (now : Int) : Event :=
  { id := "VOL-" ++ symbol ++ "-" ++ timeframe ++ "-" ++ toString bar.close_ts
    ts := bar.close_ts
    symbol := symbol
    source := bar.source
    exchange := bar.exchange
    timeframe := timeframe
    rule := "volume_spike"
    severity := "warning"
    message := "Volume spike detected"
    detail_price := bar.notional_usd
    created_at := now
    delivered := false }

/-- `rules/volume_spike.py` `_handle_zscore`: z-score of the current
notional against the preceding `lookback` bars, plus the absolute-return
and notional floors. -/
def handle_zscore (sqrtQ : ℚ → ℚ) (cfg : AppVolCfg)
    (timeframe symbol : String) (bars : List Bar) (now : Int) :
    Option Event :=
  let lookback := cfg.zscore.lookback_windows
  if bars.length < lookback + 1 then none
  else
    let baseline := volBaseline lookback bars
    let current := bars.getLastD default
    let current_notional := current.notional_usd
    let z := zscore_volume sqrtQ current_notional
      (baseline.map (·.notional_usd))
    match z with
    | none => none
    | some zv =>
        if zv < cfg.zscore.z_thr then none
        else
          let ret := volRet lookback bars
          if |ret| < cfg.zscore.min_abs_return then none
          else if current_notional < cfg.zscore.min_notional_usd then none
          else some (vol_event symbol timeframe current now)

/-- `rules/volume_spike.py` `_handle_multiplier`: bucket membership,
notional multiple of the baseline mean and floors. (With an empty
baseline the Python `statistics.mean` would raise; the rational mean is 0
there and the zero-baseline guard returns none.) -/
def handle_multiplier (cfg : AppVolCfg) (timeframe symbol : String)
    (bars : List Bar) (now : Int) : Option Event :=
  let lookback := cfg.zscore.lookback_windows
  if bars.length < lookback + 1 then none
  else
    let baseline := volBaseline lookback bars
    let current := bars.getLastD default
    let current_notional := current.notional_usd
    let ret := volRet lookback bars
    if |ret| < cfg.multiplier.min_abs_return then none
    else
      match cfg.multiplier.buckets.find? (fun b => symbol ∈ b.symbols) with
      | none => none
      | some bucket =>
          let baseline_notional := mean (baseline.map (·.notional_usd))
          if baseline_notional = 0 then none
          else
            if current_notional / baseline_notional < bucket.mult ∨
                current_notional < bucket.min_notional_usd then none
            else some (vol_event symbol timeframe current now)

/-- Per-symbol loop body of `run_volume_spike`: length guard, cooldown
gate, mode dispatch, and on fire the event plus the cooldown update. -/
def run_volume_spike_symbol (sqrtQ : ℚ → ℚ) (cfg : AppVolCfg)
    (timeframe symbol : String) (bars : List Bar)
    (store : String → Option Int) (now : Int) :
    (String → Option Int) × Option Event :=
  if bars.length < cfg.zscore.lookback_windows + 1 then (store, none)
  else if ¬ passes_cooldown store (vol_cooldown_key symbol timeframe)
      cfg.cooldown_minutes now then (store, none)
  else
    let event :=
      match cfg.mode with
      | .zscore => handle_zscore sqrtQ cfg timeframe symbol bars now
      | .multiplier => handle_multiplier cfg timeframe symbol bars now
    match event with
    | some ev =>
        (update_cooldown store (vol_cooldown_key symbol timeframe) now,
          some ev)
    | none => (store, none)

/-- Mean of the baseline notionals (the μ of the claim). -/
def volMu (lookback : ℕ) (bars : List Bar) : ℚ :=
  mean ((volBaseline lookback bars).map (·.notional_usd))

/-- The population standard deviation σ of the baseline notionals, through
the supplied square root. -/
def volSigma (sqrtQ : ℚ → ℚ) (lookback : ℕ) (bars : List Bar) : ℚ :=
  sqrtQ (pvariance ((volBaseline lookback bars).map (·.notional_usd)))

/-- C4: volume-spike z-score mode. With at least lookback+1 candles, a
baseline whose population standard deviation σ (via the supplied square
root) is positive, and no active cooldown, the current candle fires iff
(v − μ)/σ ≥ z_thr AND |return vs the prior close| ≥ min_abs_return AND
v ≥ min_notional_usd; failing any single condition suppresses the fire. -/
theorem c4_volume_zscore_fire_iff (sqrtQ : ℚ → ℚ) (cfg : AppVolCfg)
    (timeframe symbol : String) (bars : List Bar)
    (store : String → Option Int) (now : Int)
    (hmode : cfg.mode = .zscore)
    (hlb : 2 ≤ cfg.zscore.lookback_windows)
    (hlen : bars.length = cfg.zscore.lookback_windows + 1)
    (hsig : 0 < volSigma sqrtQ cfg.zscore.lookback_windows bars)
    (_hsigsq : volSigma sqrtQ cfg.zscore.lookback_windows bars ^ 2 =
      pvariance ((volBaseline cfg.zscore.lookback_windows bars).map
        (·.notional_usd)))
    (hcool : passes_cooldown store (vol_cooldown_key symbol timeframe)
      cfg.cooldown_minutes now = true) :
    ((run_volume_spike_symbol sqrtQ cfg timeframe symbol bars store
        now).2.isSome = true
      ↔ (cfg.zscore.z_thr ≤
            ((bars.getLastD default).notional_usd -
              volMu cfg.zscore.lookback_windows bars) /
              volSigma sqrtQ cfg.zscore.lookback_windows bars
          ∧ cfg.zscore.min_abs_return ≤
              |volRet cfg.zscore.lookback_windows bars|
          ∧ cfg.zscore.min_notional_usd ≤
              (bars.getLastD default).notional_usd)) := by
  have hblen : ((volBaseline cfg.zscore.lookback_windows bars).map
      (·.notional_usd)).length = cfg.zscore.lookback_windows := by
    simp only [List.length_map, volBaseline, List.length_dropLast,
      List.length_drop]
    omega
  have hz : zscore_volume sqrtQ (bars.getLastD default).notional_usd
      ((volBaseline cfg.zscore.lookback_windows bars).map (·.notional_usd)) =
      some (((bars.getLastD default).notional_usd -
        volMu cfg.zscore.lookback_windows bars) /
        volSigma sqrtQ cfg.zscore.lookback_windows bars) := by
    simp only [zscore_volume]
    rw [if_neg (by rw [hblen]; omega)]
    rw [if_neg (show ¬ sqrtQ (pvariance ((volBaseline
      cfg.zscore.lookback_windows bars).map (·.notional_usd))) = 0 from
      ne_of_gt hsig)]
    rfl
  have hev : (handle_zscore sqrtQ cfg timeframe symbol bars now).isSome =
      true ↔
      (cfg.zscore.z_thr ≤
          ((bars.getLastD default).notional_usd -
            volMu cfg.zscore.lookback_windows bars) /
            volSigma sqrtQ cfg.zscore.lookback_windows bars
        ∧ cfg.zscore.min_abs_return ≤
            |volRet cfg.zscore.lookback_windows bars|
        ∧ cfg.zscore.min_notional_usd ≤
            (bars.getLastD default).notional_usd) := by
    unfold handle_zscore
    rw [if_neg (by omega)]
    simp only [hz]
    by_cases hc1 : ((bars.getLastD default).notional_usd -
        volMu cfg.zscore.lookback_windows bars) /
        volSigma sqrtQ cfg.zscore.lookback_windows bars < cfg.zscore.z_thr
    · rw [if_pos hc1]
      simp only [Option.isSome_none, Bool.false_eq_true, false_iff]
      rintro ⟨hA, -, -⟩
      exact absurd hA (not_le.mpr hc1)
    · rw [if_neg hc1]
      by_cases hc2 : |volRet cfg.zscore.lookback_windows bars| <
          cfg.zscore.min_abs_return
      · rw [if_pos hc2]
        simp only [Option.isSome_none, Bool.false_eq_true, false_iff]
        rintro ⟨-, hB, -⟩
        exact absurd hB (not_le.mpr hc2)
      · rw [if_neg hc2]
        by_cases hc3 : (bars.getLastD default).notional_usd <
            cfg.zscore.min_notional_usd
        · rw [if_pos hc3]
          simp only [Option.isSome_none, Bool.false_eq_true, false_iff]
          rintro ⟨-, -, hC⟩
          exact absurd hC (not_le.mpr hc3)
        · rw [if_neg hc3]
          exact ⟨fun _ => ⟨not_lt.mp hc1, not_lt.mp hc2, not_lt.mp hc3⟩,
            fun _ => rfl⟩
  unfold run_volume_spike_symbol
  rw [if_neg (by omega)]
  rw [if_neg (by simp [hcool])]
  simp only [hmode]
  cases he : handle_zscore sqrtQ cfg timeframe symbol bars now with
  | some ev =>
      simp only [he]
      have hconj := hev.mp (by rw [he]; rfl)
      exact ⟨fun _ => hconj, fun _ => rfl⟩
  | none =>
      simp only [he]
      have hnc : ¬ (cfg.zscore.z_thr ≤
          ((bars.getLastD default).notional_usd -
            volMu cfg.zscore.lookback_windows bars) /
            volSigma sqrtQ cfg.zscore.lookback_windows bars
        ∧ cfg.zscore.min_abs_return ≤
            |volRet cfg.zscore.lookback_windows bars|
        ∧ cfg.zscore.min_notional_usd ≤
            (bars.getLastD default).notional_usd) := by
        intro h
        have := hev.mpr h
        rw [he] at this
        simp at this
      exact ⟨fun h => absurd h (by simp), fun h => absurd h hnc⟩

/-- Configuration of the C4 witness: lookback 2, low notional floor. -/
def c4Cfg : AppVolCfg :=
  { mode := .zscore,
    zscore := { lookback_windows := 2, z_thr := 3, min_notional_usd := 10,
                min_abs_return := 1 / 200 } }

/-- Bars of the C4 witness: baseline notionals 1 and 3 (variance 1),
current bar with notional 40 and a 2 percent move. -/
def c4Bars : List Bar :=
  [{ close := 99, notional_usd := 1 },
   { close := 100, notional_usd := 3 },
   { close := 102, close_ts := 900, notional_usd := 40 }]

/-- Witness for C4: with σ = 1 the z-score is 38 and every floor passes,
so the spike fires. -/
theorem c4_volume_zscore_fire_iff_witness :
    c4Cfg.mode = .zscore ∧
    ((run_volume_spike_symbol id c4Cfg "5m" "BTCUSDT" c4Bars (fun _ => none)
        1000).2.isSome = true
      ↔ (c4Cfg.zscore.z_thr ≤
            ((c4Bars.getLastD default).notional_usd -
              volMu c4Cfg.zscore.lookback_windows c4Bars) /
              volSigma id c4Cfg.zscore.lookback_windows c4Bars
          ∧ c4Cfg.zscore.min_abs_return ≤
              |volRet c4Cfg.zscore.lookback_windows c4Bars|
          ∧ c4Cfg.zscore.min_notional_usd ≤
              (c4Bars.getLastD default).notional_usd)) := by
  have hbase : (volBaseline c4Cfg.zscore.lookback_windows c4Bars).map
      (·.notional_usd) = [1, 3] := rfl
  have hvar : pvariance ((volBaseline c4Cfg.zscore.lookback_windows
      c4Bars).map (·.notional_usd)) = 1 := by
    rw [hbase]
    norm_num [pvariance, mean, List.sum_cons, List.sum_nil, List.map_cons,
      List.map_nil]
  have hsig : (0 : ℚ) < volSigma id c4Cfg.zscore.lookback_windows c4Bars := by
    unfold volSigma
    rw [hvar]
    norm_num
  have hsigsq : volSigma id c4Cfg.zscore.lookback_windows c4Bars ^ 2 =
      pvariance ((volBaseline c4Cfg.zscore.lookback_windows c4Bars).map
        (·.notional_usd)) := by
    unfold volSigma
    rw [hvar]
    norm_num
  exact ⟨rfl, c4_volume_zscore_fire_iff id c4Cfg "5m" "BTCUSDT" c4Bars
    (fun _ => none) 1000 rfl (by decide) (by decide) hsig hsigsq rfl⟩

end Alert1
